import Mathlib

/-!
Shallow embedding of the core of the WGPU 2D pixel-art proof-of-concept
(crates `pyxl` and the game crate). Machine floats are modelled by exact
rationals; where NaN behaviour matters (the `%` operator of `f32` with a
zero divisor) an explicit NaN-carrying type `Fp` is used. Stateful code is
modelled by explicit state passing; the unbounded `while` creep loops of
`Data::v_collide` / `Data::h_collide` are modelled with explicit fuel and
an `Option` result (`none` = the loop has not exited within the fuel).
-/

namespace PixelArt

/-! ### pyxl/src/math.rs -/

/-- `Rectangle<f32>` from pyxl/src/math.rs, with `f32` modelled as `ℚ`. -/
structure Rectangle where
  x : ℚ
  y : ℚ
  w : ℚ
  h : ℚ
deriving DecidableEq

def Rectangle.right (r : Rectangle) : ℚ := r.x + r.w

def Rectangle.top (r : Rectangle) : ℚ := r.y

def Rectangle.left (r : Rectangle) : ℚ := r.x

def Rectangle.bottom (r : Rectangle) : ℚ := r.y + r.h

/-- `Rectangle::contains` from pyxl/src/math.rs:
`!(right < other.left || left > other.right || top > other.bottom || bottom < other.top)`. -/
def Rectangle.contains (s other : Rectangle) : Bool :=
  !(decide (s.right < other.left) || decide (s.left > other.right) ||
    decide (s.top > other.bottom) || decide (s.bottom < other.top))

/-- `Rectangle::translate` from pyxl/src/math.rs. -/
def Rectangle.translate (r : Rectangle) (v : ℚ × ℚ) : Rectangle :=
  { r with x := r.x + v.1, y := r.y + v.2 }

/-- The overlap relation as the spec words it: two rectangles overlap iff
neither is entirely to one side of the other on either axis, with touching
edges counting as overlap (closed-interval AABB overlap). -/
def specOverlap (a b : Rectangle) : Prop :=
  ¬ (a.x + a.w < b.x ∨ b.x + b.w < a.x) ∧ ¬ (a.y + a.h < b.y ∨ b.y + b.h < a.y)

instance (a b : Rectangle) : Decidable (specOverlap a b) := by
  unfold specOverlap; infer_instance

/-! ### src/game.rs : LevelGeometry -/

/-- `LevelGeometry` from src/game.rs. -/
structure LevelGeometry where
  blocks : List Rectangle
  ladders : List Rectangle
  topLadders : List Rectangle

/-- `LevelGeometry::colliding` from src/game.rs. -/
def LevelGeometry.colliding (g : LevelGeometry) (rect : Rectangle) : Bool :=
  g.blocks.any fun r => r.contains rect

/-- `LevelGeometry::ladder_colliding` from src/game.rs. -/
def LevelGeometry.ladderColliding (g : LevelGeometry) (rect : Rectangle) : Bool :=
  g.ladders.any fun r => r.contains rect

/-- `LevelGeometry::top_ladder_colliding` from src/game.rs. -/
def LevelGeometry.topLadderColliding (g : LevelGeometry) (rect : Rectangle) : Bool :=
  g.topLadders.any fun r => r.contains rect

lemma contains_iff_specOverlap (a b : Rectangle) :
    a.contains b = true ↔ specOverlap a b := by
  simp only [Rectangle.contains, Rectangle.right, Rectangle.left, Rectangle.top,
    Rectangle.bottom, specOverlap, Bool.not_eq_true', Bool.or_eq_false_iff,
    decide_eq_false_iff_not, not_lt, not_or, gt_iff_lt]
  tauto

/-- C5: `colliding(rect)` is true exactly when some solid rectangle overlaps
`rect` under closed-interval AABB overlap (touching edges count);
`ladder_colliding` and `top_ladder_colliding` apply the same test to the
ladder and ladder-top sets; and each query answers `false` on an empty
rectangle collection. -/
theorem colliding_correct (g : LevelGeometry) (rect : Rectangle) :
    (g.colliding rect = true ↔ ∃ r ∈ g.blocks, specOverlap r rect) ∧
    (g.ladderColliding rect = true ↔ ∃ r ∈ g.ladders, specOverlap r rect) ∧
    (g.topLadderColliding rect = true ↔ ∃ r ∈ g.topLadders, specOverlap r rect) ∧
    (g.blocks = [] → g.colliding rect = false) ∧
    (g.ladders = [] → g.ladderColliding rect = false) ∧
    (g.topLadders = [] → g.topLadderColliding rect = false) := by
  refine ⟨?_, ?_, ?_, ?_, ?_, ?_⟩
  · simp [LevelGeometry.colliding, List.any_eq_true, contains_iff_specOverlap]
  · simp [LevelGeometry.ladderColliding, List.any_eq_true, contains_iff_specOverlap]
  · simp [LevelGeometry.topLadderColliding, List.any_eq_true, contains_iff_specOverlap]
  · intro h; simp [LevelGeometry.colliding, h]
  · intro h; simp [LevelGeometry.ladderColliding, h]
  · intro h; simp [LevelGeometry.topLadderColliding, h]

/-- C5 witness: the theorem instantiated at a concrete geometry and query
rectangle, with every hypothesis discharged on concrete data. -/
theorem colliding_correct_witness :
    (LevelGeometry.colliding ⟨[⟨0, 50, 100, 10⟩], [], []⟩ ⟨40, 30, 20, 20⟩ = true ↔
      ∃ r ∈ [(⟨0, 50, 100, 10⟩ : Rectangle)], specOverlap r ⟨40, 30, 20, 20⟩) ∧
    ([] = ([] : List Rectangle) →
      LevelGeometry.ladderColliding ⟨[⟨0, 50, 100, 10⟩], [], []⟩ ⟨40, 30, 20, 20⟩ = false) := by
  have h := colliding_correct ⟨[⟨0, 50, 100, 10⟩], [], []⟩ ⟨40, 30, 20, 20⟩
  exact ⟨h.1, fun _ => h.2.2.2.2.1 rfl⟩

/-! ### f32 model with explicit NaN, and the pieces of Rust float arithmetic
the animation code uses: `+`, `>` and `%`. Finite values are exact
rationals; `%` by zero produces NaN, and every comparison with NaN is
false, as for IEEE `f32`. -/

inductive Fp where
  | nan : Fp
  | val (q : ℚ) : Fp
deriving DecidableEq

/-- Truncation toward zero, as Rust float `%` uses. -/
def qtrunc (q : ℚ) : ℤ := if 0 ≤ q then ⌊q⌋ else ⌈q⌉

def Fp.add : Fp → Fp → Fp
  | .val a, .val b => .val (a + b)
  | _, _ => .nan

/-- Strict `>` on `f32`: false whenever either side is NaN. -/
def Fp.gt : Fp → Fp → Bool
  | .val a, .val b => decide (b < a)
  | _, _ => false

/-- Rust `%` on `f32`: `a - b * trunc(a / b)`, NaN when the divisor is zero
or either operand is NaN. -/
def Fp.rem : Fp → Fp → Fp
  | .val a, .val b => if b = 0 then .nan else .val (a - b * qtrunc (a / b))
  | _, _ => .nan

/-! ### pyxl/src/graphics/pixel_art/sprite_sheet.rs -/

/-- `FrameRate` from sprite_sheet.rs. Durations are finite `f32` constants,
modelled as `ℚ`. -/
inductive FrameRate where
  | constant (frameDuration : ℚ) : FrameRate
  | variableR (frameDurations : List ℚ) : FrameRate
  | noneR : FrameRate
deriving DecidableEq

/-- `AnimationTime` from sprite_sheet.rs (`max` is the sprite sheet's
`count`). -/
structure AnimationTime where
  t : Fp
  frame : ℕ
  currentFrameDuration : ℚ
  frameRate : FrameRate
  max : ℕ
deriving DecidableEq

/-- `AnimationTime::current_frame_duration`: constant value, indexed
per-frame duration, or `0.0` for `FrameRate::None`. -/
def AnimationTime.currentFrameDurationFn (a : AnimationTime) : ℚ :=
  match a.frameRate with
  | .constant fd => fd
  | .variableR fds => fds.getD a.frame 0
  | .noneR => 0

/-- `AnimationTime::new` built from a sprite sheet with the given frame
rate and frame count. -/
def AnimationTime.new (fr : FrameRate) (count : ℕ) : AnimationTime :=
  let inst : AnimationTime :=
    { t := .val 0, frame := 0, frameRate := fr, currentFrameDuration := 0, max := count }
  { inst with currentFrameDuration := inst.currentFrameDurationFn }

/-- `AnimationTime::advance`: `t += delta`; if `t > cfd` then `t %= cfd`
and `frame = (frame + 1) % max`. -/
def AnimationTime.advance (a : AnimationTime) (delta : ℚ) : AnimationTime :=
  let t1 := a.t.add (.val delta)
  let cfd := AnimationTime.currentFrameDurationFn { a with t := t1 }
  if t1.gt (.val cfd) then
    { a with t := t1.rem (.val cfd), frame := (a.frame + 1) % a.max }
  else
    { a with t := t1 }

/-- Repeated `advance` over a list of deltas. -/
def AnimationTime.advanceAll (a : AnimationTime) (ds : List ℚ) : AnimationTime :=
  ds.foldl AnimationTime.advance a

/-- C4: with `FrameRate::None` the current frame duration is `0.0`; the
very first `advance` with a positive delta makes `t > 0.0` hold, so the
code runs `t %= 0.0` (NaN) and advances `frame` from 0 to 1 — the frame
does change, contradicting the claim that it never moves. After that `t`
is NaN and the frame is frozen at 1. -/
theorem frameRate_none_advances :
    ((AnimationTime.new .noneR 3).advance 1).frame = 1 ∧
    ((AnimationTime.new .noneR 3).advance 1).t = .nan ∧
    (AnimationTime.new .noneR 3).frame = 0 ∧
    (((AnimationTime.new .noneR 3).advance 1).advance 1).frame = 1 := by
  norm_num [AnimationTime.new, AnimationTime.advance, AnimationTime.currentFrameDurationFn,
    Fp.add, Fp.gt, Fp.rem]

/-! Arithmetic facts about the frame counter under `FrameRate::Constant`. -/

lemma fract_bounds {fd : ℚ} (hfd : 0 < fd) (T : ℚ) :
    0 ≤ T - fd * ⌊T / fd⌋ ∧ T - fd * ⌊T / fd⌋ < fd := by
  have h1 : (⌊T / fd⌋ : ℚ) ≤ T / fd := Int.floor_le _
  have h2 : T / fd < ⌊T / fd⌋ + 1 := Int.lt_floor_add_one _
  constructor
  · have := (mul_le_mul_left hfd).mpr h1
    rw [mul_div_cancel₀ _ (ne_of_gt hfd)] at this
    linarith
  · have := (mul_lt_mul_left hfd).mpr h2
    rw [mul_div_cancel₀ _ (ne_of_gt hfd)] at this
    nlinarith

lemma floor_shift_one {fd T d : ℚ} (hfd : 0 < fd)
    (h1 : fd < T - fd * ⌊T / fd⌋ + d) (h2 : d ≤ fd) :
    ⌊(T + d) / fd⌋ = ⌊T / fd⌋ + 1 := by
  obtain ⟨hr0, hr1⟩ := fract_bounds hfd T
  rw [Int.floor_eq_iff]
  constructor
  · rw [le_div_iff hfd]
    push_cast
    nlinarith
  · rw [div_lt_iff hfd]
    push_cast
    nlinarith

lemma floor_stay {fd T d : ℚ} (hfd : 0 < fd)
    (h1 : T - fd * ⌊T / fd⌋ + d < fd) (h0 : 0 ≤ d) :
    ⌊(T + d) / fd⌋ = ⌊T / fd⌋ := by
  obtain ⟨hr0, hr1⟩ := fract_bounds hfd T
  rw [Int.floor_eq_iff]
  constructor
  · rw [le_div_iff hfd]
    push_cast
    nlinarith
  · rw [div_lt_iff hfd]
    push_cast
    nlinarith

lemma advance_constant_step {fd : ℚ} {count : ℕ} (hfd : 0 < fd) {a : AnimationTime} {T d : ℚ}
    (hfr : a.frameRate = .constant fd) (hmax : a.max = count)
    (ht : a.t = .val (T - fd * ⌊T / fd⌋)) (hframe : a.frame = (⌊T / fd⌋).toNat % count)
    (hT : 0 ≤ T) (hd0 : 0 ≤ d) (hdf : d ≤ fd)
    (hnm : ¬ ∃ z : ℤ, T + d = z * fd) :
    (a.advance d).frameRate = .constant fd ∧ (a.advance d).max = count ∧
    (a.advance d).t = .val (T + d - fd * ⌊(T + d) / fd⌋) ∧
    (a.advance d).frame = (⌊(T + d) / fd⌋).toNat % count := by
  obtain ⟨hr0, hr1⟩ := fract_bounds hfd T
  have hm0 : (0 : ℤ) ≤ ⌊T / fd⌋ := Int.floor_nonneg.mpr (div_nonneg hT hfd.le)
  simp only [AnimationTime.advance, ht, Fp.add, AnimationTime.currentFrameDurationFn, hfr]
  by_cases hwrap : fd < T - fd * ⌊T / fd⌋ + d
  · have hgt : Fp.gt (.val (T - fd * ⌊T / fd⌋ + d)) (.val fd) = true := by
      simp [Fp.gt, hwrap]
    simp only [hgt, if_true, Fp.rem, if_neg (ne_of_gt hfd)]
    have hfloor := floor_shift_one hfd hwrap hdf
    have htr : qtrunc ((T - fd * ⌊T / fd⌋ + d) / fd) = 1 := by
      have hpos : 0 ≤ (T - fd * ⌊T / fd⌋ + d) / fd := by positivity
      rw [qtrunc, if_pos hpos, Int.floor_eq_iff]
      constructor
      · rw [le_div_iff hfd]; push_cast; linarith
      · rw [div_lt_iff hfd]; push_cast; linarith
    refine ⟨trivial, hmax, ?_, ?_⟩
    · rw [htr, hfloor]
      push_cast
      ring_nf
    · rw [hframe, hmax, hfloor]
      have htn : (⌊T / fd⌋ + 1).toNat = ⌊T / fd⌋.toNat + 1 := by omega
      rw [htn]
      exact Nat.ModEq.add_right 1 (Nat.mod_modEq _ _)
  · have hlt : T - fd * ⌊T / fd⌋ + d < fd := by
      rcases lt_or_eq_of_le (not_lt.mp hwrap) with h | h
      · exact h
      · exfalso
        exact hnm ⟨⌊T / fd⌋ + 1, by push_cast; linarith⟩
    have hgt : Fp.gt (.val (T - fd * ⌊T / fd⌋ + d)) (.val fd) = false := by
      simp [Fp.gt]
      linarith
    simp only [hgt, Bool.false_eq_true, if_false]
    have hfloor := floor_stay hfd hlt hd0
    refine ⟨trivial, hmax, ?_, ?_⟩
    · rw [hfloor]; ring_nf
    · rw [hframe, hfloor]

lemma advanceAll_constant_aux {fd : ℚ} {count : ℕ} (hfd : 0 < fd) :
    ∀ (ds : List ℚ) (a : AnimationTime) (T : ℚ),
    a.frameRate = .constant fd → a.max = count →
    a.t = .val (T - fd * ⌊T / fd⌋) → a.frame = (⌊T / fd⌋).toNat % count → 0 ≤ T →
    (∀ d ∈ ds, 0 ≤ d ∧ d ≤ fd) →
    (∀ n, 0 < n → ¬ ∃ z : ℤ, T + (ds.take n).sum = z * fd) →
    (a.advanceAll ds).frame = (⌊(T + ds.sum) / fd⌋).toNat % count
  | [], a, T, hfr, hmax, ht, hframe, hT, _, _ => by
      simpa [AnimationTime.advanceAll] using hframe
  | d :: tl, a, T, hfr, hmax, ht, hframe, hT, hds, hnm => by
      have hd := hds d (List.mem_cons_self d tl)
      have hnm1 : ¬ ∃ z : ℤ, T + d = z * fd := by
        have := hnm 1 Nat.one_pos
        simpa using this
      obtain ⟨hfr1, hmax1, ht1, hframe1⟩ :=
        advance_constant_step hfd hfr hmax ht hframe hT hd.1 hd.2 hnm1
      have hrec := advanceAll_constant_aux hfd tl (a.advance d) (T + d) hfr1 hmax1 ht1 hframe1
        (by linarith [hd.1]) (fun x hx => hds x (List.mem_cons_of_mem d hx))
        (by
          intro n hn
          have := hnm (n + 1) (Nat.succ_pos n)
          simp only [List.take_succ_cons, List.sum_cons] at this
          intro ⟨z, hz⟩
          exact this ⟨z, by linarith⟩)
      have : (a.advanceAll (d :: tl)) = ((a.advance d).advanceAll tl) := rfl
      rw [this, hrec, List.sum_cons, ← add_assoc]

/-- C6 (amended): with `FrameRate::Constant(fd)`, `fd > 0`, `count > 0`,
and deltas each in `[0, fd]` whose nonempty prefix sums never land exactly
on a multiple of `fd`, after advancing by all the deltas the frame equals
`floor(T / fd) mod count` for `T` the total elapsed time. (The original
unconditional statement fails: a delta exceeding `fd` wraps only once, and
a total landing exactly on a multiple of `fd` does not wrap because the
code compares with strict `>`.) -/
theorem animation_constant_frame (fd : ℚ) (count : ℕ) (ds : List ℚ)
    (hfd : 0 < fd) (hcount : 0 < count)
    (hds : ∀ d ∈ ds, 0 ≤ d ∧ d ≤ fd)
    (hnm : ∀ n, 0 < n → ¬ ∃ z : ℤ, (ds.take n).sum = z * fd) :
    ((AnimationTime.new (.constant fd) count).advanceAll ds).frame
      = (⌊ds.sum / fd⌋).toNat % count := by
  have h0 : (0 : ℚ) - fd * ⌊(0 : ℚ) / fd⌋ = 0 := by simp
  have hmain := advanceAll_constant_aux hfd ds (AnimationTime.new (.constant fd) count) 0
    rfl rfl (by simp [AnimationTime.new, AnimationTime.currentFrameDurationFn, h0])
    (by simp [AnimationTime.new]) le_rfl hds
    (by
      intro n hn
      simpa using hnm n hn)
  simpa using hmain

/-- C6 witness: `fd = 1`, `count = 3`, deltas `[1/2, 3/4]`: total `5/4`,
frame `⌊5/4⌋ % 3 = 1`. -/
theorem animation_constant_frame_witness :
    ((AnimationTime.new (.constant 1) 3).advanceAll [1/2, 3/4]).frame = 1 := by
  have h := animation_constant_frame 1 3 [1/2, 3/4] one_pos (by norm_num)
    (by
      intro d hd
      simp only [List.mem_cons, List.not_mem_nil, or_false] at hd
      rcases hd with h | h <;> rw [h] <;> norm_num)
    (by
      intro n hn
      rcases n with _ | _ | n
      · exact absurd hn (lt_irrefl 0)
      · simp only [List.take_succ_cons, List.take_zero, List.sum_cons, List.sum_nil]
        rintro ⟨z, hz⟩
        have h2 : ((2 : ℤ) * z : ℚ) = 1 := by push_cast; linarith
        have h3 : (2 : ℤ) * z = 1 := by exact_mod_cast h2
        omega
      · simp only [List.take_succ_cons, List.take_nil, List.sum_cons, List.sum_nil]
        rintro ⟨z, hz⟩
        have h2 : ((4 : ℤ) * z : ℚ) = 5 := by push_cast; linarith
        have h3 : (4 : ℤ) * z = 5 := by exact_mod_cast h2
        omega)
  rw [h]
  have hsum : ⌊([(1 : ℚ)/2, 3/4].sum) / 1⌋ = 1 := by norm_num
  rw [hsum]
  rfl

/-- C6 counterexample: a single `advance(5/2)` with `fd = 1`, `count = 3`
leaves `frame = 1` (the wrap advances the frame only once), while the
claimed formula `⌊T / fd⌋ mod count` gives `2`. -/
theorem animation_constant_frame_counterexample :
    ((AnimationTime.new (.constant 1) 3).advanceAll [5/2]).frame = 1 ∧
    (⌊((5 : ℚ)/2) / 1⌋).toNat % 3 = 2 ∧ (1 : ℕ) ≠ 2 := by
  refine ⟨?_, ?_, by norm_num⟩
  swap
  · have h2 : ⌊((5 : ℚ)/2) / 1⌋ = 2 := by norm_num
    rw [h2]
    rfl
  norm_num [AnimationTime.advanceAll, AnimationTime.advance, AnimationTime.new,
    AnimationTime.currentFrameDurationFn, Fp.add, Fp.gt, Fp.rem, qtrunc]

/-! ### src/input.rs -/

/-- `Key` from src/input.rs (only the state read by the player logic). -/
structure Key where
  justChanged : Bool
  pressed : Bool

/-- `Key::just_pressed` from src/input.rs. -/
def Key.justPressed (k : Key) : Bool := k.justChanged && k.pressed

/-- `Input` from src/input.rs. The player code additionally reads
`input.down`, which is modelled here alongside the four keys the struct in
input.rs declares. -/
structure Input where
  jump : Key
  left : Key
  right : Key
  attack : Key
  down : Key

/-! ### src/player.rs : constants and physics data -/

def LAND_TIME : ℚ := 1/10
def H_SPEED : ℚ := 200
def GRAVITY : ℚ := 2000
def JUMP_SPEED : ℚ := 500
def ATTACK_DURATION : ℚ := 1/5

/-- Rust `f32::signum` restricted to the values arising here: `-1` for
negatives, `1` otherwise (Rust maps `+0.0` to `1.0`). -/
def rsignum (q : ℚ) : ℚ := if q < 0 then -1 else 1

def qfloor (q : ℚ) : ℚ := (⌊q⌋ : ℤ)

def qceil (q : ℚ) : ℚ := (⌈q⌉ : ℤ)

/-- `Data` from src/player.rs. -/
structure Data where
  health : ℤ
  collisionRect : Rectangle
  queuedAttack : Bool
  attackCooldown : ℚ
  velocity : ℚ × ℚ
  position : ℚ × ℚ
  jumpCount : ℤ
  onGround : Bool
  flipped : Bool
  direction : ℚ
  hurtbox : Rectangle

/-- `Data::collision` from src/player.rs: whether any solid rectangle of
the level geometry contains (overlaps) `rect`. -/
def Data.collision (rectangles : List Rectangle) (rect : Rectangle) : Bool :=
  rectangles.any fun r => r.contains rect

/-- The creep `while` loop of `Data::v_collide`, with explicit fuel:
while the rectangle one signum-step further down/up does not collide,
step the y position by the signum. `none` means the loop has not exited
within `fuel` iterations. -/
def Data.vCreep (rectangles : List Rectangle) (rect : Rectangle) (px s : ℚ) :
    ℕ → ℚ → Option ℚ
  | 0, py =>
    if Data.collision rectangles (rect.translate (px, py + s)) then some py else Option.none
  | fuel + 1, py =>
    if Data.collision rectangles (rect.translate (px, py + s)) then some py
    else Data.vCreep rectangles rect px s fuel (py + s)

/-- The creep `while` loop of `Data::h_collide`, with explicit fuel. -/
def Data.hCreep (rectangles : List Rectangle) (rect : Rectangle) (py s : ℚ) :
    ℕ → ℚ → Option ℚ
  | 0, px =>
    if Data.collision rectangles (rect.translate (px + s, py)) then some px else Option.none
  | fuel + 1, px =>
    if Data.collision rectangles (rect.translate (px + s, py)) then some px
    else Data.hCreep rectangles rect py s fuel (px + s)

/-- `Data::v_collide` from src/player.rs: if the rectangle displaced by
`velocity.y * delta` collides, snap `position.y` with `floor` when
`velocity.y > 0` (also setting `on_ground`) and `ceil` otherwise, creep by
`velocity.y.signum()` while one more step does not collide, and zero
`velocity.y`. -/
def Data.vCollide (fuel : ℕ) (delta : ℚ) (rectangles : List Rectangle) (d : Data) :
    Option Data :=
  if Data.collision rectangles
      (d.collisionRect.translate (d.position.1, d.position.2 + d.velocity.2 * delta)) then
    match Data.vCreep rectangles d.collisionRect d.position.1 (rsignum d.velocity.2) fuel
        (if 0 < d.velocity.2 then qfloor d.position.2 else qceil d.position.2) with
    | some py =>
      some { d with
        position := (d.position.1, py)
        velocity := (d.velocity.1, 0)
        onGround := if 0 < d.velocity.2 then true else d.onGround }
    | Option.none => Option.none
  else some d

/-- `Data::h_collide` from src/player.rs, the horizontal analogue (it does
not touch `on_ground`). -/
def Data.hCollide (fuel : ℕ) (delta : ℚ) (rectangles : List Rectangle) (d : Data) :
    Option Data :=
  if Data.collision rectangles
      (d.collisionRect.translate (d.position.1 + d.velocity.1 * delta, d.position.2)) then
    match Data.hCreep rectangles d.collisionRect d.position.2 (rsignum d.velocity.1) fuel
        (if 0 < d.velocity.1 then qfloor d.position.1 else qceil d.position.1) with
    | some px =>
      some { d with position := (px, d.position.2), velocity := (0, d.velocity.2) }
    | Option.none => Option.none
  else some d

/-- The y snap the code performs (floor when moving down, ceil otherwise). -/
def vSnap (d : Data) : ℚ :=
  if 0 < d.velocity.2 then qfloor d.position.2 else qceil d.position.2

/-- The x snap the code performs. -/
def hSnap (d : Data) : ℚ :=
  if 0 < d.velocity.1 then qfloor d.position.1 else qceil d.position.1

/-! Characterisation of the creep loops. -/

lemma vCreep_eq_of {g : List Rectangle} {rect : Rectangle} {px s : ℚ} :
    ∀ {k fuel : ℕ} {py : ℚ}, k ≤ fuel →
    Data.collision g (rect.translate (px, py + (k + 1) * s)) = true →
    (∀ m : ℕ, m < k → Data.collision g (rect.translate (px, py + (m + 1) * s)) = false) →
    Data.vCreep g rect px s fuel py = some (py + k * s) := by
  intro k
  induction k with
  | zero =>
    intro fuel py _ hc _
    have hc1 : Data.collision g (rect.translate (px, py + s)) = true := by
      convert hc using 4
      push_cast
      ring
    have hout : py + ((0 : ℕ) : ℚ) * s = py := by push_cast; ring
    cases fuel with
    | zero => rw [Data.vCreep, if_pos hc1, hout]
    | succ n => rw [Data.vCreep, if_pos hc1, hout]
  | succ k ih =>
    intro fuel py hk hc hnc
    have h0 : Data.collision g (rect.translate (px, py + s)) = false := by
      have h1 := hnc 0 (Nat.succ_pos k)
      convert h1 using 4
      push_cast
      ring
    cases fuel with
    | zero => omega
    | succ n =>
      have hk1 : k ≤ n := Nat.lt_succ_iff.mp hk
      have hc1 : Data.collision g (rect.translate (px, (py + s) + (k + 1) * s)) = true := by
        convert hc using 4
        push_cast
        ring
      have hnc1 : ∀ m : ℕ, m < k →
          Data.collision g (rect.translate (px, (py + s) + (m + 1) * s)) = false := by
        intro m hm
        have h2 := hnc (m + 1) (Nat.succ_lt_succ hm)
        convert h2 using 4
        push_cast
        ring
      have hrec := ih hk1 hc1 hnc1
      rw [Data.vCreep, if_neg (by rw [h0]; exact Bool.false_ne_true), hrec]
      congr 1
      push_cast
      ring

lemma hCreep_eq_of {g : List Rectangle} {rect : Rectangle} {py s : ℚ} :
    ∀ {k fuel : ℕ} {px : ℚ}, k ≤ fuel →
    Data.collision g (rect.translate (px + (k + 1) * s, py)) = true →
    (∀ m : ℕ, m < k → Data.collision g (rect.translate (px + (m + 1) * s, py)) = false) →
    Data.hCreep g rect py s fuel px = some (px + k * s) := by
  intro k
  induction k with
  | zero =>
    intro fuel px _ hc _
    have hc1 : Data.collision g (rect.translate (px + s, py)) = true := by
      convert hc using 4
      push_cast
      ring
    have hout : px + ((0 : ℕ) : ℚ) * s = px := by push_cast; ring
    cases fuel with
    | zero => rw [Data.hCreep, if_pos hc1, hout]
    | succ n => rw [Data.hCreep, if_pos hc1, hout]
  | succ k ih =>
    intro fuel px hk hc hnc
    have h0 : Data.collision g (rect.translate (px + s, py)) = false := by
      have h1 := hnc 0 (Nat.succ_pos k)
      convert h1 using 4
      push_cast
      ring
    cases fuel with
    | zero => omega
    | succ n =>
      have hk1 : k ≤ n := Nat.lt_succ_iff.mp hk
      have hc1 : Data.collision g (rect.translate ((px + s) + (k + 1) * s, py)) = true := by
        convert hc using 4
        push_cast
        ring
      have hnc1 : ∀ m : ℕ, m < k →
          Data.collision g (rect.translate ((px + s) + (m + 1) * s, py)) = false := by
        intro m hm
        have h2 := hnc (m + 1) (Nat.succ_lt_succ hm)
        convert h2 using 4
        push_cast
        ring
      have hrec := ih hk1 hc1 hnc1
      rw [Data.hCreep, if_neg (by rw [h0]; exact Bool.false_ne_true), hrec]
      congr 1
      push_cast
      ring

lemma vCreep_some {g : List Rectangle} {rect : Rectangle} {px s : ℚ} :
    ∀ {fuel : ℕ} {py out : ℚ}, Data.vCreep g rect px s fuel py = some out →
    ∃ k : ℕ, out = py + k * s ∧
      Data.collision g (rect.translate (px, py + (k + 1) * s)) = true ∧
      ∀ m : ℕ, m < k → Data.collision g (rect.translate (px, py + (m + 1) * s)) = false := by
  intro fuel
  induction fuel with
  | zero =>
    intro py out h
    by_cases hc : Data.collision g (rect.translate (px, py + s)) = true
    · rw [Data.vCreep, if_pos hc, Option.some_inj] at h
      refine ⟨0, by rw [← h]; push_cast; ring, ?_, by omega⟩
      convert hc using 4
      push_cast
      ring
    · rw [Data.vCreep, if_neg hc] at h
      exact absurd h (Option.noConfusion)
  | succ n ih =>
    intro py out h
    by_cases hc : Data.collision g (rect.translate (px, py + s)) = true
    · rw [Data.vCreep, if_pos hc, Option.some_inj] at h
      refine ⟨0, by rw [← h]; push_cast; ring, ?_, by omega⟩
      convert hc using 4
      push_cast
      ring
    · have hc0 : Data.collision g (rect.translate (px, py + s)) = false :=
        eq_false_of_ne_true hc
      rw [Data.vCreep, if_neg hc] at h
      obtain ⟨k, hout, hcoll, hnc⟩ := ih h
      refine ⟨k + 1, by rw [hout]; push_cast; ring, ?_, ?_⟩
      · convert hcoll using 4
        push_cast
        ring
      · intro m hm
        cases m with
        | zero =>
          convert hc0 using 4
          push_cast
          ring
        | succ mm =>
          have h3 := hnc mm (Nat.lt_of_succ_lt_succ hm)
          convert h3 using 4
          push_cast
          ring

lemma hCreep_some {g : List Rectangle} {rect : Rectangle} {py s : ℚ} :
    ∀ {fuel : ℕ} {px out : ℚ}, Data.hCreep g rect py s fuel px = some out →
    ∃ k : ℕ, out = px + k * s ∧
      Data.collision g (rect.translate (px + (k + 1) * s, py)) = true ∧
      ∀ m : ℕ, m < k → Data.collision g (rect.translate (px + (m + 1) * s, py)) = false := by
  intro fuel
  induction fuel with
  | zero =>
    intro px out h
    by_cases hc : Data.collision g (rect.translate (px + s, py)) = true
    · rw [Data.hCreep, if_pos hc, Option.some_inj] at h
      refine ⟨0, by rw [← h]; push_cast; ring, ?_, by omega⟩
      convert hc using 4
      push_cast
      ring
    · rw [Data.hCreep, if_neg hc] at h
      exact absurd h (Option.noConfusion)
  | succ n ih =>
    intro px out h
    by_cases hc : Data.collision g (rect.translate (px + s, py)) = true
    · rw [Data.hCreep, if_pos hc, Option.some_inj] at h
      refine ⟨0, by rw [← h]; push_cast; ring, ?_, by omega⟩
      convert hc using 4
      push_cast
      ring
    · have hc0 : Data.collision g (rect.translate (px + s, py)) = false :=
        eq_false_of_ne_true hc
      rw [Data.hCreep, if_neg hc] at h
      obtain ⟨k, hout, hcoll, hnc⟩ := ih h
      refine ⟨k + 1, by rw [hout]; push_cast; ring, ?_, ?_⟩
      · convert hcoll using 4
        push_cast
        ring
      · intro m hm
        cases m with
        | zero =>
          convert hc0 using 4
          push_cast
          ring
        | succ mm =>
          have h3 := hnc mm (Nat.lt_of_succ_lt_succ hm)
          convert h3 using 4
          push_cast
          ring

/-- Claim C2's description of the resolution step, written from the spec's
words for comparison with the source translation: snap with `ceil` when the
axis velocity is positive and `floor` when it is negative, then retreat one
unit per iteration against the sign of the velocity until no collision
remains, and zero the axis velocity. -/
def Data.specVRetreat (rectangles : List Rectangle) (rect : Rectangle) (px s : ℚ) :
    ℕ → ℚ → Option ℚ
  | 0, py =>
    if Data.collision rectangles (rect.translate (px, py)) then Option.none else some py
  | fuel + 1, py =>
    if Data.collision rectangles (rect.translate (px, py)) then
      Data.specVRetreat rectangles rect px s fuel (py - s)
    else some py

/-- The vertical resolution step as claim C2 words it (spec-words model). -/
def Data.specVCollide (fuel : ℕ) (delta : ℚ) (rectangles : List Rectangle) (d : Data) :
    Option Data :=
  if Data.collision rectangles
      (d.collisionRect.translate (d.position.1, d.position.2 + d.velocity.2 * delta)) then
    match Data.specVRetreat rectangles d.collisionRect d.position.1 (rsignum d.velocity.2)
        fuel (if 0 < d.velocity.2 then qceil d.position.2 else qfloor d.position.2) with
    | some py =>
      some { d with position := (d.position.1, py), velocity := (d.velocity.1, 0) }
    | Option.none => Option.none
  else some d

lemma specVRetreat_of_no_collision {g : List Rectangle} {rect : Rectangle} {px s py : ℚ}
    (fuel : ℕ) (h : Data.collision g (rect.translate (px, py)) = false) :
    Data.specVRetreat g rect px s fuel py = some py := by
  cases fuel with
  | zero => rw [Data.specVRetreat, if_neg (by rw [h]; exact Bool.false_ne_true)]
  | succ n => rw [Data.specVRetreat, if_neg (by rw [h]; exact Bool.false_ne_true)]

/-- The concrete scenario separating the code from claim C2's description:
one solid block spanning `y ∈ [36, 46]`, the player rectangle 20×20 ending
at `position.y`, `position.y = 30.5`, falling with `velocity.y = 20`,
`delta = 1`. -/
def snapGeom : List Rectangle := [⟨0, 36, 100, 10⟩]

def snapData : Data :=
  { health := 5, collisionRect := ⟨-10, -20, 20, 20⟩, queuedAttack := false,
    attackCooldown := 0, velocity := (0, 20), position := (50, 61/2), jumpCount := 0,
    onGround := false, flipped := false, direction := 0, hurtbox := ⟨-10, -10, 20, 20⟩ }

def snapResult : Data :=
  { snapData with position := (50, 35), velocity := (0, 0), onGround := true }

lemma snap_collision_displaced :
    Data.collision snapGeom
      (snapData.collisionRect.translate
        (snapData.position.1, snapData.position.2 + snapData.velocity.2 * 1)) = true := by
  norm_num [Data.collision, Rectangle.contains, Rectangle.translate, Rectangle.right,
    Rectangle.left, Rectangle.top, Rectangle.bottom, snapGeom, snapData]

lemma snap_vCollide_eval : Data.vCollide 10 1 snapGeom snapData = some snapResult := by
  have hcreep : Data.vCreep snapGeom snapData.collisionRect snapData.position.1
      (rsignum snapData.velocity.2) 10 (qfloor snapData.position.2) = some 35 := by
    have h30 : qfloor snapData.position.2 = 30 := by
      norm_num [qfloor, snapData]
    have hs : rsignum snapData.velocity.2 = 1 := by
      norm_num [rsignum, snapData]
    rw [h30, hs]
    have h5 := @vCreep_eq_of snapGeom snapData.collisionRect 50 1 5 10 30 (by omega)
      (by
        norm_num [Data.collision, Rectangle.contains, Rectangle.translate, Rectangle.right,
          Rectangle.left, Rectangle.top, Rectangle.bottom, snapGeom, snapData])
      (by
        intro m hm
        have hq : (m : ℚ) < 5 := by exact_mod_cast hm
        norm_num [Data.collision, Rectangle.contains, Rectangle.translate, Rectangle.right,
          Rectangle.left, Rectangle.top, Rectangle.bottom, snapGeom, snapData]
        intro h
        linarith)
    show Data.vCreep snapGeom snapData.collisionRect 50 1 10 30 = some 35
    rw [h5]
    norm_num
  rw [Data.vCollide, if_pos snap_collision_displaced]
  have hpos : (0 : ℚ) < snapData.velocity.2 := by norm_num [snapData]
  simp only [if_pos hpos, hcreep]
  rfl

lemma snap_specVCollide_eval :
    Data.specVCollide 10 1 snapGeom snapData = some { snapData with
      position := (50, 31), velocity := (0, 0) } := by
  rw [Data.specVCollide, if_pos snap_collision_displaced]
  have hpos : (0 : ℚ) < snapData.velocity.2 := by norm_num [snapData]
  have hceil : qceil snapData.position.2 = 31 := by
    have h31 : ⌈(61 : ℚ)/2⌉ = (31 : ℤ) := by
      rw [Int.ceil_eq_iff]
      norm_num
    show ((⌈(61 : ℚ)/2⌉ : ℤ) : ℚ) = 31
    rw [h31]
    norm_num
  have hnc : Data.collision snapGeom
      (snapData.collisionRect.translate (snapData.position.1, 31)) = false := by
    norm_num [Data.collision, Rectangle.contains, Rectangle.translate, Rectangle.right,
      Rectangle.left, Rectangle.top, Rectangle.bottom, snapGeom, snapData]
  simp only [if_pos hpos, hceil, specVRetreat_of_no_collision 10 hnc]
  rfl

/-- C2 counterexample: at the concrete scenario the code snaps with `floor`
(30) and creeps downward, settling at `position.y = 35`, while the claim's
described procedure (ceil on positive velocity, then retreat against the
velocity until no collision) yields `position.y = 31`. -/
theorem collide_resolution_counterexample :
    (Data.vCollide 10 1 snapGeom snapData).map (fun x => x.position.2) = some 35 ∧
    (Data.specVCollide 10 1 snapGeom snapData).map (fun x => x.position.2) = some 31 ∧
    (35 : ℚ) ≠ 31 := by
  refine ⟨?_, ?_, by norm_num⟩
  · rw [snap_vCollide_eval]; rfl
  · rw [snap_specVCollide_eval]; rfl

/-- C2 (amended): per axis, if the displaced rectangle does not collide the
step is the identity; if it does collide and the creep loop exits, the axis
velocity is zeroed, the other coordinate is unchanged, vertical resolution
sets `on_ground` when moving downward, and the resolved coordinate equals
the snap (`floor` when the axis velocity is positive, `ceil` otherwise)
plus `k` signum-steps in the direction of travel, where `k` is the least
number of steps such that one further step collides. -/
theorem collide_resolution (g : List Rectangle) (δ : ℚ) (d d1 : Data) (fuel : ℕ) :
    (Data.collision g
        (d.collisionRect.translate (d.position.1, d.position.2 + d.velocity.2 * δ)) = false →
      Data.vCollide fuel δ g d = some d) ∧
    (Data.vCollide fuel δ g d = some d1 →
      Data.collision g
        (d.collisionRect.translate (d.position.1, d.position.2 + d.velocity.2 * δ)) = true →
      d1.velocity = (d.velocity.1, 0) ∧
      d1.onGround = (decide (0 < d.velocity.2) || d.onGround) ∧
      d1.position.1 = d.position.1 ∧
      ∃ k : ℕ, d1.position.2 = vSnap d + k * rsignum d.velocity.2 ∧
        Data.collision g (d.collisionRect.translate
          (d.position.1, vSnap d + (k + 1) * rsignum d.velocity.2)) = true ∧
        ∀ m : ℕ, m < k → Data.collision g (d.collisionRect.translate
          (d.position.1, vSnap d + (m + 1) * rsignum d.velocity.2)) = false) ∧
    (Data.collision g
        (d.collisionRect.translate (d.position.1 + d.velocity.1 * δ, d.position.2)) = false →
      Data.hCollide fuel δ g d = some d) ∧
    (Data.hCollide fuel δ g d = some d1 →
      Data.collision g
        (d.collisionRect.translate (d.position.1 + d.velocity.1 * δ, d.position.2)) = true →
      d1.velocity = (0, d.velocity.2) ∧
      d1.position.2 = d.position.2 ∧
      ∃ k : ℕ, d1.position.1 = hSnap d + k * rsignum d.velocity.1 ∧
        Data.collision g (d.collisionRect.translate
          (hSnap d + (k + 1) * rsignum d.velocity.1, d.position.2)) = true ∧
        ∀ m : ℕ, m < k → Data.collision g (d.collisionRect.translate
          (hSnap d + (m + 1) * rsignum d.velocity.1, d.position.2)) = false) := by
  refine ⟨?_, ?_, ?_, ?_⟩
  · intro h
    rw [Data.vCollide, if_neg (by rw [h]; exact Bool.false_ne_true)]
  · intro h hc
    rw [Data.vCollide, if_pos hc] at h
    rcases hcr : Data.vCreep g d.collisionRect d.position.1 (rsignum d.velocity.2) fuel
        (if 0 < d.velocity.2 then qfloor d.position.2 else qceil d.position.2) with _ | py
    · rw [hcr] at h
      exact absurd h (Option.noConfusion)
    · rw [hcr, Option.some_inj] at h
      obtain ⟨k, hout, hcoll, hnc⟩ := vCreep_some hcr
      refine ⟨by rw [← h], ?_, by rw [← h], k, ?_, ?_, ?_⟩
      · rw [← h]
        by_cases hv : 0 < d.velocity.2 <;> simp [hv]
      · rw [← h]
        simpa [vSnap] using hout
      · simpa [vSnap] using hcoll
      · simpa [vSnap] using hnc
  · intro h
    rw [Data.hCollide, if_neg (by rw [h]; exact Bool.false_ne_true)]
  · intro h hc
    rw [Data.hCollide, if_pos hc] at h
    rcases hcr : Data.hCreep g d.collisionRect d.position.2 (rsignum d.velocity.1) fuel
        (if 0 < d.velocity.1 then qfloor d.position.1 else qceil d.position.1) with _ | px
    · rw [hcr] at h
      exact absurd h (Option.noConfusion)
    · rw [hcr, Option.some_inj] at h
      obtain ⟨k, hout, hcoll, hnc⟩ := hCreep_some hcr
      refine ⟨by rw [← h], by rw [← h], k, ?_, ?_, ?_⟩
      · rw [← h]
        simpa [hSnap] using hout
      · simpa [hSnap] using hcoll
      · simpa [hSnap] using hnc

/-- C2 witness: the amended theorem applied at the concrete scenario —
the code settles at `y = 35` with zeroed vertical velocity and
`on_ground = true`; the horizontal no-collision branch applied to an empty
geometry leaves the data unchanged. -/
theorem collide_resolution_witness :
    snapResult.velocity = ((0 : ℚ), (0 : ℚ)) ∧
    snapResult.onGround = true ∧
    Data.hCollide 5 1 [] snapData = some snapData := by
  have h := collide_resolution snapGeom 1 snapData snapResult 10
  have h1 := h.2.1 snap_vCollide_eval snap_collision_displaced
  have h2 := collide_resolution [] 1 snapData snapData 5
  refine ⟨?_, ?_, h2.2.2.1 (by simp [Data.collision])⟩
  · rw [h1.1]
    rfl
  · rw [h1.2.1]
    norm_num [snapData]

lemma vCreep_isSome {g : List Rectangle} {rect : Rectangle} {px s : ℚ} :
    ∀ {k fuel : ℕ} {py : ℚ}, k ≤ fuel →
    Data.collision g (rect.translate (px, py + (k + 1) * s)) = true →
    ∃ out, Data.vCreep g rect px s fuel py = some out := by
  intro k
  induction k with
  | zero =>
    intro fuel py _ hc
    have hc1 : Data.collision g (rect.translate (px, py + s)) = true := by
      convert hc using 4
      push_cast
      ring
    cases fuel with
    | zero => exact ⟨py, by rw [Data.vCreep, if_pos hc1]⟩
    | succ n => exact ⟨py, by rw [Data.vCreep, if_pos hc1]⟩
  | succ k ih =>
    intro fuel py hk hc
    by_cases h0 : Data.collision g (rect.translate (px, py + s)) = true
    · cases fuel with
      | zero => exact ⟨py, by rw [Data.vCreep, if_pos h0]⟩
      | succ n => exact ⟨py, by rw [Data.vCreep, if_pos h0]⟩
    · cases fuel with
      | zero => omega
      | succ n =>
        have hc1 : Data.collision g (rect.translate (px, (py + s) + (k + 1) * s)) = true := by
          convert hc using 4
          push_cast
          ring
        obtain ⟨out, hout⟩ := ih (Nat.lt_succ_iff.mp hk) hc1
        exact ⟨out, by rw [Data.vCreep, if_neg h0, hout]⟩

lemma hCreep_isSome {g : List Rectangle} {rect : Rectangle} {py s : ℚ} :
    ∀ {k fuel : ℕ} {px : ℚ}, k ≤ fuel →
    Data.collision g (rect.translate (px + (k + 1) * s, py)) = true →
    ∃ out, Data.hCreep g rect py s fuel px = some out := by
  intro k
  induction k with
  | zero =>
    intro fuel px _ hc
    have hc1 : Data.collision g (rect.translate (px + s, py)) = true := by
      convert hc using 4
      push_cast
      ring
    cases fuel with
    | zero => exact ⟨px, by rw [Data.hCreep, if_pos hc1]⟩
    | succ n => exact ⟨px, by rw [Data.hCreep, if_pos hc1]⟩
  | succ k ih =>
    intro fuel px hk hc
    by_cases h0 : Data.collision g (rect.translate (px + s, py)) = true
    · cases fuel with
      | zero => exact ⟨px, by rw [Data.hCreep, if_pos h0]⟩
      | succ n => exact ⟨px, by rw [Data.hCreep, if_pos h0]⟩
    · cases fuel with
      | zero => omega
      | succ n =>
        have hc1 : Data.collision g (rect.translate ((px + s) + (k + 1) * s, py)) = true := by
          convert hc using 4
          push_cast
          ring
        obtain ⟨out, hout⟩ := ih (Nat.lt_succ_iff.mp hk) hc1
        exact ⟨out, by rw [Data.hCreep, if_neg h0, hout]⟩

/-- A state on which the creep loop of `v_collide` never exits: the player
rectangle already overlaps a thin block (height 1/5) near the top of its
extent, the displaced rectangle still overlaps it, but every whole-unit
downward step from the snapped position has already passed the block, so
the loop condition never becomes false. -/
def divergeGeom : List Rectangle := [⟨0, -98/5, 100, 1/5⟩]

def divergeData : Data :=
  { health := 5, collisionRect := ⟨-10, -20, 20, 20⟩, queuedAttack := false,
    attackCooldown := 0, velocity := (0, 1/2), position := (50, 0), jumpCount := 0,
    onGround := false, flipped := false, direction := 0, hurtbox := ⟨-10, -10, 20, 20⟩ }

lemma diverge_vCreep_none :
    ∀ (fuel : ℕ) (py : ℚ), 0 ≤ py →
    Data.vCreep divergeGeom divergeData.collisionRect 50 1 fuel py = Option.none := by
  have hnc : ∀ py : ℚ, 0 ≤ py →
      Data.collision divergeGeom (divergeData.collisionRect.translate (50, py + 1)) = false := by
    intro py hpy
    norm_num [Data.collision, Rectangle.contains, Rectangle.translate, Rectangle.right,
      Rectangle.left, Rectangle.top, Rectangle.bottom, divergeGeom, divergeData]
    intro h
    linarith
  intro fuel
  induction fuel with
  | zero =>
    intro py hpy
    rw [Data.vCreep, if_neg (by rw [hnc py hpy]; exact Bool.false_ne_true)]
  | succ n ih =>
    intro py hpy
    rw [Data.vCreep, if_neg (by rw [hnc py hpy]; exact Bool.false_ne_true)]
    exact ih (py + 1) (by linarith)

lemma diverge_vCollide_none :
    ∀ fuel : ℕ, Data.vCollide fuel 1 divergeGeom divergeData = Option.none := by
  intro fuel
  have hdisp : Data.collision divergeGeom
      (divergeData.collisionRect.translate
        (divergeData.position.1, divergeData.position.2 + divergeData.velocity.2 * 1)) = true := by
    norm_num [Data.collision, Rectangle.contains, Rectangle.translate, Rectangle.right,
      Rectangle.left, Rectangle.top, Rectangle.bottom, divergeGeom, divergeData]
  have hpos : (0 : ℚ) < divergeData.velocity.2 := by norm_num [divergeData]
  have hfloor : qfloor divergeData.position.2 = 0 := by norm_num [qfloor, divergeData]
  have hs : rsignum divergeData.velocity.2 = 1 := by norm_num [rsignum, divergeData]
  rw [Data.vCollide, if_pos hdisp, if_pos hpos, hfloor, hs]
  have e1 : divergeData.position.1 = (50 : ℚ) := rfl
  rw [e1, diverge_vCreep_none fuel 0 le_rfl]

/-- C9 (amended): whenever solid geometry is reachable from the snapped
position — some number `k` of whole-unit signum-steps makes one further
step collide — both creep loops exit within `k` iterations (fuel `k`
suffices), so the termination half of the claim holds with the bound being
the reachability distance; and without that precondition the loop really
can run forever, witnessed by a concrete diverging state. The claimed
bound "in terms of the player rectangle's own size" does not hold (see the
counterexample). -/
theorem creep_termination (g : List Rectangle) (δ : ℚ) (d : Data) :
    ((∃ k : ℕ, Data.collision g (d.collisionRect.translate
        (d.position.1, vSnap d + (k + 1) * rsignum d.velocity.2)) = true) →
      ∃ fuel d1, Data.vCollide fuel δ g d = some d1) ∧
    ((∃ k : ℕ, Data.collision g (d.collisionRect.translate
        (hSnap d + (k + 1) * rsignum d.velocity.1, d.position.2)) = true) →
      ∃ fuel d1, Data.hCollide fuel δ g d = some d1) ∧
    (∀ fuel : ℕ, Data.vCollide fuel 1 divergeGeom divergeData = Option.none) := by
  refine ⟨?_, ?_, diverge_vCollide_none⟩
  · rintro ⟨k, hk⟩
    by_cases hdisp : Data.collision g
        (d.collisionRect.translate (d.position.1, d.position.2 + d.velocity.2 * δ)) = true
    · obtain ⟨out, hout⟩ := @vCreep_isSome g d.collisionRect d.position.1
        (rsignum d.velocity.2) k k _ le_rfl (by simpa [vSnap] using hk)
      refine ⟨k, { d with
        position := (d.position.1, out)
        velocity := (d.velocity.1, 0)
        onGround := if 0 < d.velocity.2 then true else d.onGround }, ?_⟩
      rw [Data.vCollide, if_pos hdisp]
      rw [hout]
    · exact ⟨0, d, by rw [Data.vCollide, if_neg hdisp]⟩
  · rintro ⟨k, hk⟩
    by_cases hdisp : Data.collision g
        (d.collisionRect.translate (d.position.1 + d.velocity.1 * δ, d.position.2)) = true
    · obtain ⟨out, hout⟩ := @hCreep_isSome g d.collisionRect d.position.2
        (rsignum d.velocity.1) k k _ le_rfl (by simpa [hSnap] using hk)
      refine ⟨k, { d with
        position := (out, d.position.2)
        velocity := (0, d.velocity.2) }, ?_⟩
      rw [Data.hCollide, if_pos hdisp]
      rw [hout]
    · exact ⟨0, d, by rw [Data.hCollide, if_neg hdisp]⟩

/-- C9 witness: the termination conjunct applied to the concrete snap
scenario (geometry reachable in 6 steps), and the divergence conjunct at
fuel 7. -/
theorem creep_termination_witness :
    (∃ fuel d1, Data.vCollide fuel 1 snapGeom snapData = some d1) ∧
    Data.vCollide 7 1 divergeGeom divergeData = Option.none := by
  have h := creep_termination snapGeom 1 snapData
  refine ⟨h.1 ⟨5, ?_⟩, h.2.2 7⟩
  have hfloor : vSnap snapData = 30 := by
    norm_num [vSnap, qfloor, snapData]
  have hs : rsignum snapData.velocity.2 = 1 := by norm_num [rsignum, snapData]
  rw [hfloor, hs]
  norm_num [Data.collision, Rectangle.contains, Rectangle.translate, Rectangle.right,
    Rectangle.left, Rectangle.top, Rectangle.bottom, snapGeom, snapData]

/-- The concrete scenario refuting a creep bound in terms of the player
rectangle: a 2×2 rectangle falling from `y = 0` at `velocity.y = 10` with
`delta = 1` onto a block whose top is at `y = 10`. The displaced rectangle
touches the block, the snap keeps `y = 0`, and the creep then walks 9 whole
units before stopping. -/
def sizeBoundGeom : List Rectangle := [⟨0, 10, 100, 5⟩]

def sizeBoundData : Data :=
  { health := 5, collisionRect := ⟨-1, -2, 2, 2⟩, queuedAttack := false,
    attackCooldown := 0, velocity := (0, 10), position := (50, 0), jumpCount := 0,
    onGround := false, flipped := false, direction := 0, hurtbox := ⟨-1, -1, 2, 2⟩ }

/-- C9 counterexample: with the 2×2 rectangle the creep loop runs 9
iterations (snap `y = 0`, unit step, final `y = 9`), which exceeds the
rectangle's width+height (4) and width×height (4) — the iteration count is
bounded by the distance to the geometry, not by the rectangle's own size. -/
theorem creep_bound_counterexample :
    (Data.vCollide 20 1 sizeBoundGeom sizeBoundData).map (fun x => x.position.2) = some 9 ∧
    sizeBoundData.collisionRect.w = 2 ∧ sizeBoundData.collisionRect.h = 2 ∧
    (9 : ℚ) > 2 + 2 ∧ (9 : ℚ) > 2 * 2 := by
  refine ⟨?_, rfl, rfl, by norm_num, by norm_num⟩
  have hdisp : Data.collision sizeBoundGeom
      (sizeBoundData.collisionRect.translate
        (sizeBoundData.position.1, sizeBoundData.position.2 + sizeBoundData.velocity.2 * 1))
        = true := by
    norm_num [Data.collision, Rectangle.contains, Rectangle.translate, Rectangle.right,
      Rectangle.left, Rectangle.top, Rectangle.bottom, sizeBoundGeom, sizeBoundData]
  have hpos : (0 : ℚ) < sizeBoundData.velocity.2 := by norm_num [sizeBoundData]
  have hfloor : qfloor sizeBoundData.position.2 = 0 := by norm_num [qfloor, sizeBoundData]
  have hs : rsignum sizeBoundData.velocity.2 = 1 := by norm_num [rsignum, sizeBoundData]
  have hcreep := @vCreep_eq_of sizeBoundGeom sizeBoundData.collisionRect 50 1 9 20 0 (by omega)
    (by
      norm_num [Data.collision, Rectangle.contains, Rectangle.translate, Rectangle.right,
        Rectangle.left, Rectangle.top, Rectangle.bottom, sizeBoundGeom, sizeBoundData])
    (by
      intro m hm
      have hq : (m : ℚ) < 9 := by exact_mod_cast hm
      norm_num [Data.collision, Rectangle.contains, Rectangle.translate, Rectangle.right,
        Rectangle.left, Rectangle.top, Rectangle.bottom, sizeBoundGeom, sizeBoundData]
      intro h
      linarith)
  rw [Data.vCollide, if_pos hdisp, if_pos hpos, hfloor, hs]
  have e1 : sizeBoundData.position.1 = (50 : ℚ) := rfl
  rw [e1, hcreep]
  norm_num

/-! ### src/player.rs : per-frame data operations -/

/-- `Data::attack_test`: a rising edge of the attack input queues an
attack; a still-positive cooldown is decremented; the queued flag survives
only if the cooldown has elapsed. -/
def Data.attackTest (d : Data) (delta : ℚ) (input : Input) : Data :=
  let d1 := if input.attack.justPressed then { d with queuedAttack := true } else d
  let d2 := if 0 < d1.attackCooldown then
      { d1 with attackCooldown := d1.attackCooldown - delta } else d1
  { d2 with queuedAttack := d2.queuedAttack && decide (d2.attackCooldown ≤ 0) }

/-- `Data::update_velocity` from src/player.rs. -/
def Data.updateVelocity (d : Data) : Data :=
  if d.direction = 0 then
    { d with velocity := (d.velocity.1 * (3/10), d.velocity.2) }
  else if rsignum d.direction = rsignum d.velocity.1 then
    { d with velocity := (d.velocity.1 + (d.direction * H_SPEED - d.velocity.1) * (1/2),
      d.velocity.2) }
  else
    { d with velocity := (d.velocity.1 + (d.direction * H_SPEED - d.velocity.1) * (7/10),
      d.velocity.2) }

/-- `Data::apply_gravity` from src/player.rs. -/
def Data.applyGravity (d : Data) (delta : ℚ) : Data :=
  { d with velocity := (d.velocity.1, d.velocity.2 + GRAVITY * delta) }

/-- `Data::jump_test` from src/player.rs (the jump-count guard is commented
out in the source). -/
def Data.jumpTest (d : Data) (input : Input) : Data :=
  if input.jump.justPressed then
    { d with
      velocity := (d.velocity.1, -JUMP_SPEED)
      jumpCount := d.jumpCount - 1
      onGround := false }
  else d

/-- `Data::update_pos` from src/player.rs. -/
def Data.updatePos (d : Data) (delta : ℚ) : Data :=
  { d with position := (d.position.1 + d.velocity.1 * delta,
    d.position.2 + d.velocity.2 * delta) }

/-! ### src/player.rs : state machine -/

inductive JumpState where
  | rise : JumpState
  | fall : JumpState
deriving DecidableEq

inductive RunState where
  | start : RunState
  | sprint : RunState
deriving DecidableEq

inductive IdleState where
  | landing (time : ℚ) : IdleState
  | crouching : IdleState
  | standing : IdleState
deriving DecidableEq

inductive AttackStage where
  | up : AttackStage
  | down : AttackStage
  | finish : AttackStage
deriving DecidableEq

structure AttackState where
  time : ℚ
  stage : AttackStage
deriving DecidableEq

/-- `AttackState::advance`: the timer counts down; on expiry the stage
becomes `Finish` (both match arms of the source produce `Finish`) and the
timer resets to `ATTACK_DURATION`. -/
def AttackState.advance (a : AttackState) (delta : ℚ) : AttackState :=
  if a.time - delta < 0 then { time := ATTACK_DURATION, stage := .finish }
  else { a with time := a.time - delta }

inductive PState where
  | idle (s : IdleState)
  | jump (s : JumpState)
  | run (s : RunState)
  | attackIdle (a : AttackState)
  | attackRun (a : AttackState)
  | attackJump (a : AttackState)
deriving DecidableEq

def PState.isAttack : PState → Bool
  | .attackIdle _ => true
  | .attackRun _ => true
  | .attackJump _ => true
  | _ => false

structure Player where
  state : PState
  data : Data

/-- The physics half of `Player::update` (the first `match` on the state),
per state, with fuel for the collide loops. -/
def Player.updatePhysics (fuel : ℕ) (delta : ℚ) (input : Input) (g : List Rectangle)
    (p : Player) : Option Player :=
  match p.state with
  | .idle is0 =>
    match Data.vCollide fuel delta g p.data with
    | some d1 =>
      some ⟨.idle (match is0 with
        | .landing t => IdleState.landing (t - delta)
        | s => s), (d1.jumpTest input).attackTest delta input⟩
    | Option.none => Option.none
  | .jump js =>
    match Data.vCollide fuel delta g
        (((p.data.applyGravity delta).attackTest delta input).updateVelocity) with
    | some d1 =>
      match Data.hCollide fuel delta g d1 with
      | some d2 => some ⟨.jump js, (d2.updatePos delta).jumpTest input⟩
      | Option.none => Option.none
    | Option.none => Option.none
  | .run rs =>
    match Data.vCollide fuel delta g
        (((p.data.applyGravity delta).attackTest delta input).updateVelocity) with
    | some d1 =>
      match Data.hCollide fuel delta g d1 with
      | some d2 => some ⟨.run rs, (d2.updatePos delta).jumpTest input⟩
      | Option.none => Option.none
    | Option.none => Option.none
  | .attackIdle a =>
    match Data.vCollide fuel delta g
        (let dg := p.data.applyGravity delta
         { dg with velocity := (80 * dg.direction, dg.velocity.2) }) with
    | some d1 =>
      match Data.hCollide fuel delta g d1 with
      | some d2 => some ⟨.attackIdle (a.advance delta), d2.updatePos delta⟩
      | Option.none => Option.none
    | Option.none => Option.none
  | .attackRun a =>
    match Data.vCollide fuel delta g (p.data.applyGravity delta) with
    | some d1 =>
      match Data.hCollide fuel delta g d1 with
      | some d2 => some ⟨.attackRun (a.advance delta), d2.updatePos delta⟩
      | Option.none => Option.none
    | Option.none => Option.none
  | .attackJump a =>
    match Data.vCollide fuel delta g (p.data.applyGravity delta) with
    | some d1 =>
      match Data.hCollide fuel delta g d1 with
      | some d2 => some ⟨.attackJump (a.advance delta), d2.updatePos delta⟩
      | Option.none => Option.none
    | Option.none => Option.none

/-- The transition half of `Player::update` (the "check for state changes"
block, whose `loop` always runs exactly once). -/
def Player.applyTransitions (input : Input) (s : PState) (d : Data) : PState × Data :=
  match s with
  | .idle is0 =>
    if !d.onGround then (.jump .fall, d)
    else if input.jump.justPressed then (.jump .rise, d)
    else if d.queuedAttack then
      (.attackIdle ⟨ATTACK_DURATION, .up⟩, { d with queuedAttack := false })
    else if d.direction ≠ 0 then (.run .start, d)
    else
      (.idle (match is0 with
        | .landing t => if t < 0 then IdleState.standing else IdleState.landing t
        | .crouching => if !input.down.pressed then IdleState.standing else IdleState.crouching
        | .standing => if input.down.pressed then IdleState.crouching else IdleState.standing), d)
  | .jump js =>
    if d.onGround then
      (.idle (if |d.velocity.1| < 1/10 then .landing LAND_TIME else .standing), d)
    else if d.queuedAttack then
      (.attackJump ⟨ATTACK_DURATION, .up⟩, { d with queuedAttack := false })
    else if 0 < d.velocity.2 then (.jump .fall, d)
    else if d.velocity.2 < 0 then (.jump .rise, d)
    else (.jump js, d)
  | .run rs =>
    if !d.onGround then (.jump .rise, d)
    else if d.queuedAttack then
      (.attackRun ⟨ATTACK_DURATION, .up⟩, { d with queuedAttack := false })
    else
      (match rs with
        | .start => if H_SPEED * (1/2) ≤ |d.velocity.1| then PState.run .sprint
            else PState.run .start
        | .sprint => if |d.velocity.1| < 3/10 then PState.idle .standing
            else PState.run .sprint, d)
  | .attackIdle a => if a.stage = .finish then (.idle .standing, d) else (.attackIdle a, d)
  | .attackRun a => if a.stage = .finish then (.run .sprint, d) else (.attackRun a, d)
  | .attackJump a => if a.stage = .finish then (.jump .fall, d) else (.attackJump a, d)

/-- `Player::update` from src/player.rs: compute the input direction, run
the per-state physics, apply the state transitions, then the flip logic. -/
def Player.update (fuel : ℕ) (delta : ℚ) (input : Input) (g : List Rectangle)
    (p : Player) : Option Player :=
  match Player.updatePhysics fuel delta input g
      ⟨p.state, { p.data with direction :=
        if !input.left.pressed && input.right.pressed then 1
        else if input.left.pressed && !input.right.pressed then -1
        else 0 }⟩ with
  | some p1 =>
    match Player.applyTransitions input p1.state p1.data with
    | (s2, d2) =>
      some ⟨s2, { d2 with flipped :=
        if 0 < d2.velocity.1 then false
        else if d2.velocity.1 < 0 then true
        else d2.flipped }⟩
  | Option.none => Option.none

/-- The player produced by `Player::new` (sprite loading elided; it does
not touch the state or physics data). -/
def initialPlayer : Player :=
  { state := .idle .standing
    data := {
      flipped := false
      health := 5
      collisionRect := ⟨-10, -20, 20, 20⟩
      velocity := (0, 0)
      position := (100, 100)
      jumpCount := 0
      onGround := false
      direction := 0
      queuedAttack := false
      attackCooldown := 0
      hurtbox := ⟨-10, -10, 20, 20⟩ } }

/-- The player states reachable from `Player::new` by any sequence of
(terminating) frame updates. -/
inductive Reaches : Player → Prop where
  | init : Reaches initialPlayer
  | step (p p1 : Player) (fuel : ℕ) (delta : ℚ) (input : Input) (g : List Rectangle) :
      Reaches p → Player.update fuel delta input g p = some p1 → Reaches p1

/-- C8: (1) after `attack_test` the queued flag holds exactly when a
previously queued attack or a rising edge (`just_changed && pressed`) is
present and the post-decrement cooldown has elapsed — so a rising edge is
the only way it becomes set, and a still-positive cooldown is the only way
`attack_test` clears it; (2) the cooldown only ever decreases here; (3) a
state transition changes the queued flag from set to clear exactly when it
enters an attack state from a non-attack state; (4) without a new edge
(`just_changed = false`), `attack_test` never raises the queued flag. -/
theorem attack_queueing (d : Data) (delta : ℚ) (input : Input) (s : PState) :
    ((d.attackTest delta input).queuedAttack =
      ((d.queuedAttack || (input.attack.justChanged && input.attack.pressed)) &&
        decide ((if 0 < d.attackCooldown then d.attackCooldown - delta
          else d.attackCooldown) ≤ 0))) ∧
    ((d.attackTest delta input).attackCooldown =
      (if 0 < d.attackCooldown then d.attackCooldown - delta else d.attackCooldown)) ∧
    (((Player.applyTransitions input s d).2.queuedAttack = false ∧ d.queuedAttack = true) ↔
      ((Player.applyTransitions input s d).1.isAttack = true ∧ s.isAttack = false)) ∧
    (input.attack.justChanged = false →
      (d.attackTest delta input).queuedAttack = true → d.queuedAttack = true) := by
  refine ⟨?_, ?_, ?_, ?_⟩
  · simp only [Data.attackTest, Key.justPressed]
    by_cases hjp : (input.attack.justChanged && input.attack.pressed) = true
    · by_cases hcd : 0 < d.attackCooldown <;> simp [hjp, hcd]
    · simp only [Bool.not_eq_true] at hjp
      by_cases hcd : 0 < d.attackCooldown <;> simp [hjp, hcd]
  · simp only [Data.attackTest, Key.justPressed]
    by_cases hjp : (input.attack.justChanged && input.attack.pressed) = true
    · by_cases hcd : 0 < d.attackCooldown <;> simp [hjp, hcd]
    · simp only [Bool.not_eq_true] at hjp
      by_cases hcd : 0 < d.attackCooldown <;> simp [hjp, hcd]
  · cases s with
    | idle is0 =>
      simp only [Player.applyTransitions, PState.isAttack]
      split_ifs <;> simp_all
    | jump js =>
      simp only [Player.applyTransitions, PState.isAttack]
      split_ifs <;> simp_all
    | run rs =>
      cases rs <;>
      · simp only [Player.applyTransitions, PState.isAttack]
        split_ifs <;> simp_all
    | attackIdle a =>
      simp only [Player.applyTransitions, PState.isAttack]
      split_ifs <;> simp_all
    | attackRun a =>
      simp only [Player.applyTransitions, PState.isAttack]
      split_ifs <;> simp_all
    | attackJump a =>
      simp only [Player.applyTransitions, PState.isAttack]
      split_ifs <;> simp_all
  · intro hjc
    simp only [Data.attackTest, Key.justPressed, hjc, Bool.false_and]
    by_cases hcd : 0 < d.attackCooldown <;> simp [hcd] <;> tauto

/-- C8 witness: the queueing equation at a concrete rising-edge input with
elapsed cooldown, and the no-new-press clause at a held key. -/
theorem attack_queueing_witness :
    (snapData.attackTest 1 ⟨⟨false, false⟩, ⟨false, false⟩, ⟨false, false⟩,
      ⟨true, true⟩, ⟨false, false⟩⟩).queuedAttack = true ∧
    ((snapData.attackTest 1 ⟨⟨false, false⟩, ⟨false, false⟩, ⟨false, false⟩,
      ⟨false, true⟩, ⟨false, false⟩⟩).queuedAttack = true →
      snapData.queuedAttack = true) := by
  constructor
  · have h := (attack_queueing snapData 1 ⟨⟨false, false⟩, ⟨false, false⟩, ⟨false, false⟩,
      ⟨true, true⟩, ⟨false, false⟩⟩ (.idle .standing)).1
    rw [h]
    norm_num [snapData]
  · exact (attack_queueing snapData 1 ⟨⟨false, false⟩, ⟨false, false⟩, ⟨false, false⟩,
      ⟨false, true⟩, ⟨false, false⟩⟩ (.idle .standing)).2.2.2 rfl

/-! Cooldown bookkeeping: no operation of the player ever raises
`attack_cooldown` above zero. -/

lemma attackTest_cooldown_nonpos {d : Data} {delta : ℚ} {input : Input}
    (h : d.attackCooldown ≤ 0) : (d.attackTest delta input).attackCooldown ≤ 0 := by
  simp only [Data.attackTest]
  by_cases hjp : input.attack.justPressed = true <;> simp [hjp, not_lt.mpr h, h]

lemma vCollide_cooldown {fuel : ℕ} {delta : ℚ} {g : List Rectangle} {d d1 : Data}
    (h : Data.vCollide fuel delta g d = some d1) :
    d1.attackCooldown = d.attackCooldown := by
  rw [Data.vCollide] at h
  split at h
  · split at h
    · rw [Option.some_inj] at h
      rw [← h]
    · exact absurd h (Option.noConfusion)
  · rw [Option.some_inj] at h
    rw [← h]

lemma hCollide_cooldown {fuel : ℕ} {delta : ℚ} {g : List Rectangle} {d d1 : Data}
    (h : Data.hCollide fuel delta g d = some d1) :
    d1.attackCooldown = d.attackCooldown := by
  rw [Data.hCollide] at h
  split at h
  · split at h
    · rw [Option.some_inj] at h
      rw [← h]
    · exact absurd h (Option.noConfusion)
  · rw [Option.some_inj] at h
    rw [← h]

lemma applyTransitions_cooldown (input : Input) (s : PState) (d : Data) :
    (Player.applyTransitions input s d).2.attackCooldown = d.attackCooldown := by
  cases s with
  | idle is0 => simp only [Player.applyTransitions]; split_ifs <;> rfl
  | jump js => simp only [Player.applyTransitions]; split_ifs <;> rfl
  | run rs => cases rs <;> (simp only [Player.applyTransitions]; split_ifs <;> rfl)
  | attackIdle a => simp only [Player.applyTransitions]; split_ifs <;> rfl
  | attackRun a => simp only [Player.applyTransitions]; split_ifs <;> rfl
  | attackJump a => simp only [Player.applyTransitions]; split_ifs <;> rfl

lemma jumpTest_cooldown (d : Data) (input : Input) :
    (d.jumpTest input).attackCooldown = d.attackCooldown := by
  simp only [Data.jumpTest]
  split_ifs <;> rfl

lemma updateVelocity_cooldown (d : Data) :
    (d.updateVelocity).attackCooldown = d.attackCooldown := by
  simp only [Data.updateVelocity]
  split_ifs <;> rfl

lemma updatePos_cooldown (d : Data) (delta : ℚ) :
    (d.updatePos delta).attackCooldown = d.attackCooldown := rfl

lemma updatePhysics_cooldown {fuel : ℕ} {delta : ℚ} {input : Input} {g : List Rectangle}
    {p p1 : Player} (h : Player.updatePhysics fuel delta input g p = some p1)
    (hc : p.data.attackCooldown ≤ 0) : p1.data.attackCooldown ≤ 0 := by
  rcases p with ⟨s, d⟩
  have hcd : d.attackCooldown ≤ 0 := hc
  cases s with
  | idle is0 =>
    simp only [Player.updatePhysics] at h
    split at h
    · rename_i d1 hv
      rw [Option.some_inj] at h
      rw [← h]
      refine attackTest_cooldown_nonpos ?_
      rw [jumpTest_cooldown, vCollide_cooldown hv]
      exact hcd
    · exact absurd h (Option.noConfusion)
  | jump js =>
    simp only [Player.updatePhysics] at h
    split at h
    · rename_i d1 hv
      split at h
      · rename_i d2 hh
        rw [Option.some_inj] at h
        rw [← h]
        rw [jumpTest_cooldown, updatePos_cooldown, hCollide_cooldown hh,
          vCollide_cooldown hv, updateVelocity_cooldown]
        exact attackTest_cooldown_nonpos hcd
      · exact absurd h (Option.noConfusion)
    · exact absurd h (Option.noConfusion)
  | run rs =>
    simp only [Player.updatePhysics] at h
    split at h
    · rename_i d1 hv
      split at h
      · rename_i d2 hh
        rw [Option.some_inj] at h
        rw [← h]
        rw [jumpTest_cooldown, updatePos_cooldown, hCollide_cooldown hh,
          vCollide_cooldown hv, updateVelocity_cooldown]
        exact attackTest_cooldown_nonpos hcd
      · exact absurd h (Option.noConfusion)
    · exact absurd h (Option.noConfusion)
  | attackIdle a =>
    simp only [Player.updatePhysics] at h
    split at h
    · rename_i d1 hv
      split at h
      · rename_i d2 hh
        rw [Option.some_inj] at h
        rw [← h]
        rw [updatePos_cooldown, hCollide_cooldown hh, vCollide_cooldown hv]
        exact hcd
      · exact absurd h (Option.noConfusion)
    · exact absurd h (Option.noConfusion)
  | attackRun a =>
    simp only [Player.updatePhysics] at h
    split at h
    · rename_i d1 hv
      split at h
      · rename_i d2 hh
        rw [Option.some_inj] at h
        rw [← h]
        rw [updatePos_cooldown, hCollide_cooldown hh, vCollide_cooldown hv]
        exact hcd
      · exact absurd h (Option.noConfusion)
    · exact absurd h (Option.noConfusion)
  | attackJump a =>
    simp only [Player.updatePhysics] at h
    split at h
    · rename_i d1 hv
      split at h
      · rename_i d2 hh
        rw [Option.some_inj] at h
        rw [← h]
        rw [updatePos_cooldown, hCollide_cooldown hh, vCollide_cooldown hv]
        exact hcd
      · exact absurd h (Option.noConfusion)
    · exact absurd h (Option.noConfusion)

lemma update_cooldown {fuel : ℕ} {delta : ℚ} {input : Input} {g : List Rectangle}
    {p p1 : Player} (h : Player.update fuel delta input g p = some p1)
    (hc : p.data.attackCooldown ≤ 0) : p1.data.attackCooldown ≤ 0 := by
  rw [Player.update] at h
  split at h
  · rename_i q hp
    split at h
    rename_i s2 d2 ht
    rw [Option.some_inj] at h
    have hq : q.data.attackCooldown ≤ 0 := updatePhysics_cooldown hp hc
    have hd2 : d2.attackCooldown = q.data.attackCooldown := by
      have h5 := applyTransitions_cooldown input q.state q.data
      rw [ht] at h5
      exact h5
    rw [← h]
    show d2.attackCooldown ≤ 0
    rw [hd2]
    exact hq
  · exact absurd h (Option.noConfusion)

/-- C10: from the initial player (`attack_cooldown = 0`) the cooldown stays
at or below zero across every reachable state — `attack_test` only ever
decrements it and nothing assigns a positive value — and consequently,
under that invariant, the cooldown guard in `attack_test` never clears a
queued attack: a rising edge always leaves the flag set at the end of the
call, and an already-queued attack survives the call. -/
theorem attack_cooldown_invariant :
    (∀ p : Player, Reaches p → p.data.attackCooldown ≤ 0) ∧
    (∀ (d : Data) (delta : ℚ) (input : Input), d.attackCooldown ≤ 0 →
      input.attack.justChanged = true → input.attack.pressed = true →
      (d.attackTest delta input).queuedAttack = true) ∧
    (∀ (d : Data) (delta : ℚ) (input : Input), d.attackCooldown ≤ 0 →
      d.queuedAttack = true → (d.attackTest delta input).queuedAttack = true) := by
  refine ⟨?_, ?_, ?_⟩
  · intro p hp
    induction hp with
    | init => norm_num [initialPlayer]
    | step p p1 fuel delta input g _ hup ih => exact update_cooldown hup ih
  · intro d delta input hc hjc hpr
    simp only [Data.attackTest, Key.justPressed, hjc, hpr, Bool.and_self, if_pos rfl]
    simp [not_lt.mpr hc, hc]
  · intro d delta input hc hq
    simp only [Data.attackTest, Key.justPressed]
    by_cases hjp : (input.attack.justChanged && input.attack.pressed) = true <;>
      simp [hjp, not_lt.mpr hc, hc, hq]

/-- C10 witness: the invariant at the initial player itself, and the
rising-edge conclusion at a concrete state with elapsed cooldown. -/
theorem attack_cooldown_invariant_witness :
    initialPlayer.data.attackCooldown ≤ 0 ∧
    (divergeData.attackTest 1 ⟨⟨false, false⟩, ⟨false, false⟩, ⟨false, false⟩,
      ⟨true, true⟩, ⟨false, false⟩⟩).queuedAttack = true := by
  constructor
  · exact attack_cooldown_invariant.1 initialPlayer Reaches.init
  · exact attack_cooldown_invariant.2.1 divergeData 1 _ (by norm_num [divergeData]) rfl rfl

/-! ### src/graphics/mod.rs : Renderer::flatten_draw_queue

Draw jobs are identified by the entity id they reference (the per-instance
position/flip data does not influence batching or depth assignment and is
elided). The fold mirrors the source loop: each job records the current
depth (into its instance, or the tile layer's depth buffer), sprites and
sprite sheets are batched once per id through the `HashSet`s, tile layers
are pushed unconditionally, and `depth -= depth_step` runs after each job. -/

inductive DrawJob where
  | sprite (id : ℕ) : DrawJob
  | spriteSheet (id : ℕ) (t : ℕ) : DrawJob
  | tileLayer (id : ℕ) : DrawJob
deriving DecidableEq

structure FlattenResult where
  sprites : List ℕ
  spriteIds : List ℕ
  sheets : List ℕ
  sheetIds : List ℕ
  tileLayers : List ℕ
  depths : List ℚ
deriving DecidableEq

def flattenGo (step : ℚ) : ℚ → List DrawJob → FlattenResult → FlattenResult
  | _, [], st => st
  | depth, job :: rest, st =>
    flattenGo step (depth - step) rest
      (match job with
       | .sprite id0 =>
         { st with
           depths := st.depths ++ [depth]
           sprites := if st.spriteIds.contains id0 then st.sprites else st.sprites ++ [id0]
           spriteIds := if st.spriteIds.contains id0 then st.spriteIds
             else st.spriteIds ++ [id0] }
       | .spriteSheet id0 _ =>
         { st with
           depths := st.depths ++ [depth]
           sheets := if st.sheetIds.contains id0 then st.sheets else st.sheets ++ [id0]
           sheetIds := if st.sheetIds.contains id0 then st.sheetIds
             else st.sheetIds ++ [id0] }
       | .tileLayer id0 =>
         { st with
           depths := st.depths ++ [depth]
           tileLayers := st.tileLayers ++ [id0] })

/-- `Renderer::flatten_draw_queue`: depth starts at `1.0` and steps by
`1.0 / len(queue)` after each job. -/
def flattenDrawQueue (dq : List DrawJob) : FlattenResult :=
  flattenGo (1 / (dq.length : ℚ)) 1 dq ⟨[], [], [], [], [], []⟩

lemma flattenGo_depths (step : ℚ) :
    ∀ (jobs : List DrawJob) (depth : ℚ) (st : FlattenResult),
    (flattenGo step depth jobs st).depths =
      st.depths ++ (List.range jobs.length).map (fun i : ℕ => depth - (i : ℚ) * step)
  | [], depth, st => by simp [flattenGo]
  | job :: rest, depth, st => by
    have hstep := flattenGo_depths step rest (depth - step)
    have hmap : (List.range (rest.length + 1)).map (fun i : ℕ => depth - (i : ℚ) * step) =
        depth :: (List.range rest.length).map (fun i : ℕ => (depth - step) - (i : ℚ) * step) := by
      rw [List.range_succ_eq_map, List.map_cons, List.map_map]
      refine congrArg₂ List.cons (by push_cast; ring) ?_
      refine List.map_congr_left ?_
      intro i _
      simp only [Function.comp]
      push_cast
      ring
    cases job <;>
    · rw [flattenGo, hstep]
      show (st.depths ++ [depth]) ++
          (List.range rest.length).map (fun i : ℕ => (depth - step) - (i : ℚ) * step)
        = st.depths ++ (List.range (rest.length + 1)).map (fun i : ℕ => depth - (i : ℚ) * step)
      rw [hmap, List.append_assoc]
      rfl

/-- C1: for every non-empty draw queue the recorded depth of the `i`-th
job is `1 - i / n` (the walk starts at depth `1.0` and decrements by
`1/len(queue)` after each job), so the first job's depth is `1.0` (nearest
1.0), the sequence is strictly decreasing in submission order, and no two
distinct jobs receive equal depth. -/
theorem draw_queue_depths (dq : List DrawJob) (hne : dq ≠ []) :
    (flattenDrawQueue dq).depths =
      (List.range dq.length).map (fun i : ℕ => 1 - (i : ℚ) * (1 / (dq.length : ℚ))) ∧
    (flattenDrawQueue dq).depths.length = dq.length ∧
    (flattenDrawQueue dq).depths.get? 0 = some 1 ∧
    List.Pairwise (fun a b : ℚ => b < a) (flattenDrawQueue dq).depths ∧
    (∀ i j : ℕ, i < dq.length → j < dq.length → i ≠ j →
      (flattenDrawQueue dq).depths.get? i ≠ (flattenDrawQueue dq).depths.get? j) := by
  have hn : 0 < dq.length := List.length_pos.mpr hne
  have hnq : (0 : ℚ) < (dq.length : ℚ) := by exact_mod_cast hn
  have hstep : (0 : ℚ) < 1 / (dq.length : ℚ) := by positivity
  have heq : (flattenDrawQueue dq).depths =
      (List.range dq.length).map (fun i : ℕ => 1 - (i : ℚ) * (1 / (dq.length : ℚ))) := by
    rw [flattenDrawQueue, flattenGo_depths]
    rfl
  have hmono : ∀ i j : ℕ, i < j →
      (1 - (j : ℚ) * (1 / (dq.length : ℚ))) < 1 - (i : ℚ) * (1 / (dq.length : ℚ)) := by
    intro i j hij
    have hq : (i : ℚ) < (j : ℚ) := by exact_mod_cast hij
    nlinarith [hstep]
  refine ⟨heq, ?_, ?_, ?_, ?_⟩
  · rw [heq]
    simp
  · rw [heq, List.get?_map, List.get?_range hn]
    simp
  · rw [heq, List.pairwise_map]
    exact (List.pairwise_lt_range dq.length).imp (fun hab => hmono _ _ hab)
  · intro i j hi hj hij
    rw [heq, List.get?_map, List.get?_map, List.get?_range hi, List.get?_range hj]
    simp only [Option.map_some']
    intro hcon
    rw [Option.some_inj] at hcon
    have hqij : (i : ℚ) = (j : ℚ) := by
      have h1 : (i : ℚ) * (1 / (dq.length : ℚ)) = (j : ℚ) * (1 / (dq.length : ℚ)) := by
        linarith
      exact mul_right_cancel₀ (ne_of_gt hstep) h1
    exact hij (by exact_mod_cast hqij)

/-- C1 witness: a two-job queue receives depths `[1, 1/2]` with the first
depth exactly `1`. -/
theorem draw_queue_depths_witness :
    (flattenDrawQueue [.tileLayer 0, .sprite 1]).depths = [1, 1/2] ∧
    (flattenDrawQueue [.tileLayer 0, .sprite 1]).depths.get? 0 = some 1 := by
  have h := draw_queue_depths [.tileLayer 0, .sprite 1] (by simp)
  refine ⟨?_, h.2.2.1⟩
  rw [h.1]
  norm_num [List.range_succ]

/-- C3: the `DrawJob::TileLayer` branch of `flatten_draw_queue` pushes the
layer into the per-frame batch list unconditionally — a repeated request
for the same layer is NOT ignored: the flattened tile-layer list contains
the layer once per request (each such entry is then drawn), contradicting
the doc comment on `DrawQueue::tile_layer` ("Future draw calls on the same
tile layer will be ignored"). Sprites, by contrast, are batched once per
id through the `HashSet`. -/
theorem tile_layer_not_deduplicated :
    (flattenDrawQueue [.tileLayer 3, .sprite 0, .tileLayer 3]).tileLayers = [3, 3] ∧
    (flattenDrawQueue [.sprite 0, .sprite 0]).sprites = [0] := by
  constructor <;> rfl

/-! ### pyxl tilemap loading (Renderer::load_tilemap) and the ladder-top
computation of Game::new.

`load_tilemap` collects a layer's tiles with
`iproduct!(0..width, 0..height).filter_map(get_tile)`: `x` is the outer
loop and `y` the inner one, so the list is column-major — within a column
the `y` coordinates are consecutive. The grid itself is modelled as a
function from cell coordinates to the optional per-cell data the code
reads (`flip_h`, `flip_v`, tile id). -/

/-- `Tile` from pyxl tilemap.rs (coordinates are the non-negative grid
coordinates the loader produces). -/
structure Tile where
  flipX : Bool
  flipY : Bool
  id : ℕ
  x : ℕ
  y : ℕ
deriving DecidableEq

/-- One column of `load_tilemap`'s tile collection (the inner `y` loop). -/
def columnTiles (h : ℕ) (g : ℕ → ℕ → Option (Bool × Bool × ℕ)) (x : ℕ) : List Tile :=
  (List.range h).filterMap fun y => (g x y).map fun td => ⟨td.1, td.2.1, td.2.2, x, y⟩

/-- The tile list of `Renderer::load_tilemap` in load order (column-major:
`iproduct!` runs `x` outermost). -/
def loadTiles (w h : ℕ) (g : ℕ → ℕ → Option (Bool × Bool × ℕ)) : List Tile :=
  (List.range w).flatMap (columnTiles h g)

/-- The ladder-top filter of `Game::new`: keep a tile iff it is the first
of the list, or the previous tile in load order is not the cell directly
above it (`prev.y + 1 != y || prev.x != x`). -/
def topLadderTiles (ts : List Tile) : List Tile :=
  (ts.enum.filter fun p =>
    p.1 == 0 ||
      (match ts.get? (p.1 - 1) with
       | some prev => !(prev.y + 1 == p.2.y && prev.x == p.2.x)
       | Option.none => true)).map Prod.snd

/-- The world rectangle `Game::new` builds for a ladder-top tile. -/
def rectOf (tw th : ℕ) (t : Tile) : Rectangle :=
  ⟨(tw : ℚ) * t.x, (th : ℚ) * t.y, tw, th⟩

/-- `top_ladders` from `Game::new`: the filtered tiles mapped to their
world rectangles. -/
def topLadders (tw th : ℕ) (ts : List Tile) : List Rectangle :=
  (topLadderTiles ts).map (rectOf tw th)

/-- Column-major key: strictly increasing along the load order. -/
def tileKey (h : ℕ) (t : Tile) : ℕ := t.x * h + t.y

lemma mem_columnTiles {h x : ℕ} {g : ℕ → ℕ → Option (Bool × Bool × ℕ)} {t : Tile} :
    t ∈ columnTiles h g x ↔
      t.x = x ∧ t.y < h ∧ g x t.y = some (t.flipX, t.flipY, t.id) := by
  rcases t with ⟨fx, fy, tid, tx, ty⟩
  simp only [columnTiles, List.mem_filterMap, List.mem_range, Option.map_eq_some']
  constructor
  · rintro ⟨y, hy, ⟨⟨a, b, c⟩, hg, heq⟩⟩
    injection heq with h1 h2 h3 h4 h5
    subst h1
    subst h2
    subst h3
    subst h4
    subst h5
    exact ⟨rfl, hy, hg⟩
  · rintro ⟨hx, hy, hg⟩
    subst hx
    exact ⟨ty, hy, ⟨(fx, fy, tid), hg, rfl⟩⟩

lemma mem_loadTiles {w h : ℕ} {g : ℕ → ℕ → Option (Bool × Bool × ℕ)} {t : Tile} :
    t ∈ loadTiles w h g ↔
      t.x < w ∧ t.y < h ∧ g t.x t.y = some (t.flipX, t.flipY, t.id) := by
  simp only [loadTiles, List.mem_flatMap, List.mem_range]
  constructor
  · rintro ⟨x, hx, hc⟩
    obtain ⟨hx1, hy, hg⟩ := mem_columnTiles.mp hc
    exact ⟨hx1 ▸ hx, hy, hx1 ▸ hg⟩
  · rintro ⟨hx, hy, hg⟩
    exact ⟨t.x, hx, mem_columnTiles.mpr ⟨rfl, hy, hg⟩⟩

lemma pairwise_filterMap_of {α β : Type} {R : α → α → Prop} {S : β → β → Prop}
    {f : α → Option β}
    (hf : ∀ a b pa pb, R a b → f a = some pa → f b = some pb → S pa pb) :
    ∀ {l : List α}, List.Pairwise R l → List.Pairwise S (l.filterMap f) := by
  intro l
  induction l with
  | nil => intro _; simp
  | cons a l ih =>
    intro hl
    rw [List.pairwise_cons] at hl
    rcases hfa : f a with _ | pa
    · simp only [List.filterMap_cons, hfa]
      exact ih hl.2
    · simp only [List.filterMap_cons, hfa]
      rw [List.pairwise_cons]
      refine ⟨?_, ih hl.2⟩
      intro pb hpb
      obtain ⟨b, hb, hfb⟩ := List.mem_filterMap.mp hpb
      exact hf a b pa pb (hl.1 b hb) hfa hfb

lemma columnTiles_pairwise (h : ℕ) (g : ℕ → ℕ → Option (Bool × Bool × ℕ)) (x : ℕ) :
    List.Pairwise (fun a b => tileKey h a < tileKey h b) (columnTiles h g x) := by
  refine pairwise_filterMap_of ?_ (List.pairwise_lt_range h)
  intro y1 y2 t1 t2 hy ht1 ht2
  rcases ho1 : g x y1 with _ | td1
  · rw [ho1] at ht1
    exact absurd ht1 (by simp)
  · rcases ho2 : g x y2 with _ | td2
    · rw [ho2] at ht2
      exact absurd ht2 (by simp)
    · rw [ho1, Option.map_some', Option.some_inj] at ht1
      rw [ho2, Option.map_some', Option.some_inj] at ht2
      rw [← ht1, ← ht2]
      simp only [tileKey]
      omega

lemma loadTiles_pairwise (w h : ℕ) (g : ℕ → ℕ → Option (Bool × Bool × ℕ)) :
    List.Pairwise (fun a b => tileKey h a < tileKey h b) (loadTiles w h g) := by
  induction w with
  | zero => simp [loadTiles]
  | succ n ih =>
    rw [loadTiles, List.range_succ, List.flatMap_append]
    rw [List.pairwise_append]
    refine ⟨by simpa [loadTiles] using ih, by simpa using columnTiles_pairwise h g n, ?_⟩
    intro a ha b hb
    have ha1 : a ∈ loadTiles n h g := by simpa [loadTiles] using ha
    have hb1 : b ∈ columnTiles h g n := by simpa using hb
    obtain ⟨hax, hay, _⟩ := mem_loadTiles.mp ha1
    obtain ⟨hbx, _, _⟩ := mem_loadTiles.mp (mem_loadTiles.mpr
      ⟨(mem_columnTiles.mp hb1).1 ▸ Nat.lt_succ_self n, (mem_columnTiles.mp hb1).2.1,
        (mem_columnTiles.mp hb1).1 ▸ (mem_columnTiles.mp hb1).2.2⟩)
    have hbx2 : b.x = n := (mem_columnTiles.mp hb1).1
    simp only [tileKey, hbx2]
    have h1 : a.x * h + a.y < (a.x + 1) * h := by
      have := hay
      nlinarith
    have h2 : (a.x + 1) * h ≤ n * h := Nat.mul_le_mul_right h hax
    omega

lemma sorted_adjacent {h : ℕ} {ts : List Tile}
    (hsort : List.Pairwise (fun a b => tileKey h a < tileKey h b) ts)
    {i j : ℕ} {u t : Tile}
    (hu : ts.get? i = some u) (ht : ts.get? j = some t)
    (hkey : tileKey h u + 1 = tileKey h t) : j = i + 1 := by
  obtain ⟨hi, hgi⟩ := List.get?_eq_some.mp hu
  obtain ⟨hj, hgj⟩ := List.get?_eq_some.mp ht
  have key_mono : ∀ (a b : ℕ) (ha : a < ts.length) (hb : b < ts.length), a < b →
      tileKey h (ts.get ⟨a, ha⟩) < tileKey h (ts.get ⟨b, hb⟩) := by
    intro a b ha hb hab
    exact List.pairwise_iff_get.mp hsort ⟨a, ha⟩ ⟨b, hb⟩ hab
  have hij : i < j := by
    by_contra hle
    push_neg at hle
    rcases Nat.eq_or_lt_of_le hle with he | hlt
    · subst he
      rw [hgi] at hgj
      subst hgj
      omega
    · have := key_mono j i hj hi hlt
      rw [hgi, hgj] at this
      omega
  by_contra hne
  have hmid : i + 1 < j := by omega
  have hmlen : i + 1 < ts.length := lt_trans hmid hj
  have h1 := key_mono i (i + 1) hi hmlen (Nat.lt_succ_self i)
  have h2 := key_mono (i + 1) j hmlen hj hmid
  rw [hgi] at h1
  rw [hgj] at h2
  omega

lemma mem_topLadderTiles {ts : List Tile} {t : Tile} :
    t ∈ topLadderTiles ts ↔ ∃ i : ℕ, ts.get? i = some t ∧
      (i = 0 ∨ (match ts.get? (i - 1) with
        | some prev => !(prev.y + 1 == t.y && prev.x == t.x)
        | Option.none => true) = true) := by
  simp only [topLadderTiles, List.mem_map, List.mem_filter]
  constructor
  · rintro ⟨⟨i, t1⟩, ⟨henum, hcond⟩, hsnd⟩
    have ht1 : t1 = t := hsnd
    subst ht1
    have hget : ts.get? i = some t1 := by
      rw [List.get?_eq_getElem?]
      exact List.mem_enum_iff_getElem?.mp henum
    refine ⟨i, hget, ?_⟩
    rcases (Bool.or_eq_true _ _).mp hcond with h0 | hm
    · exact Or.inl (beq_iff_eq.mp h0)
    · exact Or.inr hm
  · rintro ⟨i, hget, hcond⟩
    refine ⟨(i, t), ⟨?_, ?_⟩, rfl⟩
    · exact List.mem_enum_iff_getElem?.mpr (by rw [← List.get?_eq_getElem?]; exact hget)
    · rcases hcond with h0 | hm
      · simp [h0]
      · simp only [Bool.or_eq_true, beq_iff_eq]
        right
        exact hm

lemma mem_topLadderTiles_iff {w h : ℕ} {g : ℕ → ℕ → Option (Bool × Bool × ℕ)} {t : Tile}
    (hmem : t ∈ loadTiles w h g) :
    t ∈ topLadderTiles (loadTiles w h g) ↔
      ¬ (0 < t.y ∧ (g t.x (t.y - 1)).isSome) := by
  have hsort := loadTiles_pairwise w h g
  constructor
  · intro htop
    rintro ⟨hy, hsome⟩
    obtain ⟨td, htd⟩ := Option.isSome_iff_exists.mp hsome
    have humem : (⟨td.1, td.2.1, td.2.2, t.x, t.y - 1⟩ : Tile) ∈ loadTiles w h g := by
      refine mem_loadTiles.mpr ⟨(mem_loadTiles.mp hmem).1, ?_, ?_⟩
      · show t.y - 1 < h
        have := (mem_loadTiles.mp hmem).2.1
        omega
      · simpa using htd
    obtain ⟨j, hj⟩ := List.mem_iff_get?.mp humem
    obtain ⟨i, hget, hcond⟩ := mem_topLadderTiles.mp htop
    have hkey : tileKey h (⟨td.1, td.2.1, td.2.2, t.x, t.y - 1⟩ : Tile) + 1 = tileKey h t := by
      show t.x * h + (t.y - 1) + 1 = t.x * h + t.y
      omega
    have hadj : i = j + 1 := sorted_adjacent hsort hj hget hkey
    rcases hcond with h0 | hmatch
    · omega
    · rw [hadj, Nat.add_sub_cancel, hj] at hmatch
      have hby : ((t.y - 1 + 1 : ℕ) == t.y) = true := by
        simp only [beq_iff_eq]
        omega
      simp only [hby, beq_self_eq_true, Bool.and_self, Bool.true_and,
        Bool.not_true] at hmatch
      exact Bool.false_ne_true hmatch
  · intro hnot
    obtain ⟨i, hget⟩ := List.mem_iff_get?.mp hmem
    refine mem_topLadderTiles.mpr ⟨i, hget, ?_⟩
    rcases Nat.eq_zero_or_pos i with h0 | hpos
    · exact Or.inl h0
    · right
      have hilen : i < (loadTiles w h g).length := (List.get?_eq_some.mp hget).1
      have hplen : i - 1 < (loadTiles w h g).length := by omega
      have hprev : (loadTiles w h g).get? (i - 1) =
          some ((loadTiles w h g).get ⟨i - 1, hplen⟩) := List.get?_eq_get hplen
      rw [hprev]
      set prev := (loadTiles w h g).get ⟨i - 1, hplen⟩ with hprevdef
      by_contra hcon
      have hb : (prev.y + 1 == t.y && prev.x == t.x) = true := by
        simpa using hcon
      rw [Bool.and_eq_true, beq_iff_eq, beq_iff_eq] at hb
      obtain ⟨hpy, hpx⟩ := hb
      have hpmem : prev ∈ loadTiles w h g := List.get?_mem hprev
      obtain ⟨_, _, hg2⟩ := mem_loadTiles.mp hpmem
      refine hnot ⟨by omega, ?_⟩
      rw [show t.y - 1 = prev.y from by omega, ← hpx, hg2]
      rfl

lemma topLadderTiles_subset {ts : List Tile} {t : Tile} (h : t ∈ topLadderTiles ts) :
    t ∈ ts := by
  obtain ⟨i, hget, _⟩ := mem_topLadderTiles.mp h
  exact List.get?_mem hget

/-- C7: for every tile `t` of the Ladders layer (the tile list in the
column-major load order `load_tilemap` produces), `t` survives the
ladder-top filter — and, for positive tile dimensions, its world rectangle
is in `top_ladders` — exactly when no Ladders-layer tile exists directly
above it at `(x, y-1)`. -/
theorem top_ladders_correct (w h tw th : ℕ) (g : ℕ → ℕ → Option (Bool × Bool × ℕ))
    (t : Tile) (htw : 0 < tw) (hth : 0 < th) (hmem : t ∈ loadTiles w h g) :
    (t ∈ topLadderTiles (loadTiles w h g) ↔
      ¬ (0 < t.y ∧ (g t.x (t.y - 1)).isSome)) ∧
    (rectOf tw th t ∈ topLadders tw th (loadTiles w h g) ↔
      ¬ (0 < t.y ∧ (g t.x (t.y - 1)).isSome)) := by
  refine ⟨mem_topLadderTiles_iff hmem, ?_⟩
  rw [topLadders, List.mem_map]
  constructor
  · rintro ⟨u, hu, hru⟩
    have humem : u ∈ loadTiles w h g := topLadderTiles_subset hu
    have hxy : u.x = t.x ∧ u.y = t.y := by
      have hx : (tw : ℚ) * u.x = (tw : ℚ) * t.x := congrArg Rectangle.x hru
      have hy : (th : ℚ) * u.y = (th : ℚ) * t.y := congrArg Rectangle.y hru
      have htw0 : ((tw : ℚ)) ≠ 0 := by positivity
      have hth0 : ((th : ℚ)) ≠ 0 := by positivity
      constructor
      · exact_mod_cast mul_left_cancel₀ htw0 hx
      · exact_mod_cast mul_left_cancel₀ hth0 hy
    have hut : u = t := by
      obtain ⟨_, _, hgu⟩ := mem_loadTiles.mp humem
      obtain ⟨_, _, hgt⟩ := mem_loadTiles.mp hmem
      rw [hxy.1, hxy.2, hgt, Option.some_inj] at hgu
      rcases u with ⟨ufx, ufy, uid, ux, uy⟩
      rcases t with ⟨tfx, tfy, tid, tx, ty⟩
      simp only at hxy hgu
      injection hgu with h1 h23
      injection h23 with h2 h3
      simp_all
    rw [hut] at hu
    exact (mem_topLadderTiles_iff hmem).mp hu
  · intro hnot
    exact ⟨t, (mem_topLadderTiles_iff hmem).mpr hnot, rfl⟩

/-- C7 witness: a 1×2 grid holding a two-tile vertical ladder run — the
upper tile (no tile above) is a ladder-top, the lower tile (covered from
above) is not. -/
theorem top_ladders_correct_witness :
    ((⟨false, false, 7, 0, 0⟩ : Tile) ∈
      topLadderTiles (loadTiles 1 2 (fun _ _ => some (false, false, 7)))) ∧
    ¬ ((⟨false, false, 7, 0, 1⟩ : Tile) ∈
      topLadderTiles (loadTiles 1 2 (fun _ _ => some (false, false, 7)))) := by
  have h0 := top_ladders_correct 1 2 1 1 (fun _ _ => some (false, false, 7))
    ⟨false, false, 7, 0, 0⟩ Nat.one_pos Nat.one_pos
    (mem_loadTiles.mpr ⟨Nat.one_pos, Nat.zero_lt_two, rfl⟩)
  have h1 := top_ladders_correct 1 2 1 1 (fun _ _ => some (false, false, 7))
    ⟨false, false, 7, 0, 1⟩ Nat.one_pos Nat.one_pos
    (mem_loadTiles.mpr ⟨Nat.one_pos, Nat.one_lt_two, rfl⟩)
  constructor
  · exact h0.1.mpr (by simp)
  · intro hcon
    exact (h1.1.mp hcon) (by simp)

end PixelArt
